import Mathlib

/-!
Verification development for the chartai GPU chart-rendering engine
(`src/gpu-worker.ts` and the WGSL compute kernels in `src/shaders/`).

Floating-point scalars of the source are modelled as exact rationals (`ℚ`),
u32 indices and sizes as `ℕ`.  GPU storage buffers read by the kernels are
modelled as `List ℚ` with out-of-range reads returning 0 (robust buffer
access behaviour).  The worker's mutable chart registry, resource handles
and command handlers are modelled as a pure state machine.
-/

namespace ChartAI

attribute [local semireducible] Rat.add Rat.mul Rat.inv Rat.sub

/-- Read `l[i]`, out-of-range reads give 0 (models WGSL robust buffer access). -/

def key (l : List ℚ) (i : ℕ) : ℚ := l.getD i 0

/-- The common precondition of the line/box kernels: the X array is sorted
ascending on the first `count` entries. -/

def SortedKeys (l : List ℚ) (count : ℕ) : Prop :=
  ∀ j, j < count → ∀ i, i < j → key l i ≤ key l j

instance (l : List ℚ) (count : ℕ) : Decidable (SortedKeys l count) := by
  unfold SortedKeys; infer_instance

/-! ## Binary search (`BINARY_SEARCH` / `lowerBound` in `src/shaders/shared.ts`)

The WGSL `while (lo < hi)` loop is modelled with explicit fuel; each
iteration strictly shrinks `hi - lo`, so fuel `count` always suffices. -/

def lowerBoundGo (dataX : List ℚ) (val : ℚ) : ℕ → ℕ → ℕ → ℕ
  | 0, lo, _ => lo
  | fuel + 1, lo, hi =>
    if lo < hi then
      let mid := (lo + hi) / 2
      if key dataX mid < val then lowerBoundGo dataX val fuel (mid + 1) hi
      else lowerBoundGo dataX val fuel lo mid
    else lo

/-- `fn lowerBound(val: f32, count: u32) -> u32` from `shared.ts`. -/

def lowerBound (dataX : List ℚ) (val : ℚ) (count : ℕ) : ℕ :=
  lowerBoundGo dataX val count 0 count

/-! ## Min/max over lists and index ranges

`listMin`/`listMax` are the reference brute-force scan over a sample list.
`idxMinAux y a n` is the minimum of `y` over indices `a, a+1, …, a+n`;
`idxMin y a b` the minimum over `[a, b)` (meaningful when `a < b`). -/

def listMin : List ℚ → Option ℚ
  | [] => none
  | y :: ys => some (ys.foldl min y)

def listMax : List ℚ → Option ℚ
  | [] => none
  | y :: ys => some (ys.foldl max y)

def idxMinAux (y : ℕ → ℚ) (a : ℕ) : ℕ → ℚ
  | 0 => y a
  | n + 1 => min (idxMinAux y a n) (y (a + n + 1))

def idxMaxAux (y : ℕ → ℚ) (a : ℕ) : ℕ → ℚ
  | 0 => y a
  | n + 1 => max (idxMaxAux y a n) (y (a + n + 1))

def idxMin (y : ℕ → ℚ) (a b : ℕ) : ℚ := idxMinAux y a (b - a - 1)

def idxMax (y : ℕ → ℚ) (a b : ℕ) : ℚ := idxMaxAux y a (b - a - 1)

/-! ## The line/box aggregation kernels

Direct embedding of `LINE_COMPUTE_SHADER` (`src/shaders/line.ts`) and
`BOX_COMPUTE_SHADER` (`src/shaders/box.ts`): one invocation computes one
output column.  `none` models an invocation that returns without writing
its output slot (`outputIdx ≥ maxCols`); otherwise `some` is the record
written.  `count` is `u.pointCount`, which the worker sets to the series
X-array length. -/

def minMaxStep (acc : ℚ × ℚ) (y : ℚ) : ℚ × ℚ := (min acc.1 y, max acc.2 y)

/-- The plain min/max loop over `[startIdx, endIdx)`
(`for (var i = startIdx + 1u; i < endIdx; i++) …` with both accumulators
initialised to `dataY[startIdx]`). -/

def aggMinMax (dataY : List ℚ) (startIdx endIdx : ℕ) : ℚ × ℚ :=
  (List.range (endIdx - (startIdx + 1))).foldl
    (fun acc k => minMaxStep acc (key dataY (startIdx + 1 + k)))
    (key dataY startIdx, key dataY startIdx)

/-- The capped stride-sampling loop: `maxSamples` evenly strided probes plus
the interval's last sample.  `u32(f32(s) * stride)` is the floor of the
exact product. -/

def stridedMinMax (dataY : List ℚ) (startIdx endIdx maxSamples : ℕ) : ℚ × ℚ :=
  let stride : ℚ := ((endIdx - startIdx - 1 : ℕ) : ℚ) / ((maxSamples - 1 : ℕ) : ℚ)
  let mm := (List.range maxSamples).foldl
    (fun acc s =>
      let idx := startIdx + (⌊(s : ℚ) * stride⌋).toNat
      if idx < endIdx then minMaxStep acc (key dataY idx) else acc)
    (key dataY startIdx, key dataY startIdx)
  minMaxStep mm (key dataY (endIdx - 1))

/-- Data-space X of pixel-column boundary `c`:
`u.viewMinX + (f32(c) / u.width) * viewRangeX`.  Boundary `c + 1` is the
column's `pixelMaxX`. -/

def pixelBoundX (vminx vmaxx : ℚ) (width c : ℕ) : ℚ :=
  vminx + ((c : ℚ) / (width : ℚ)) * (vmaxx - vminx)

/-- `startIdx = lowerBound(pixelMinX, count)` for column `c`. -/

def colStart (dataX : List ℚ) (vminx vmaxx : ℚ) (width c : ℕ) : ℕ :=
  lowerBound dataX (pixelBoundX vminx vmaxx width c) dataX.length

/-- `endIdx = min(lowerBound(pixelMaxX, count), count)` for column `c`. -/

def colEnd (dataX : List ℚ) (vminx vmaxx : ℚ) (width c : ℕ) : ℕ :=
  min (lowerBound dataX (pixelBoundX vminx vmaxx width (c + 1)) dataX.length)
    dataX.length

/-- `struct LineData` of the line compute/render shaders. -/

structure LineData where
  screenX : ℚ
  minScreenY : ℚ
  maxScreenY : ℚ
  valid : ℚ

deriving DecidableEq

def invalidLine : LineData := ⟨-1, -1, -1, 0⟩

/-- The sparse-case (`startIdx >= endIdx`) nearest-sample selection of the
line kernel: whichever of the index at/after `pixelMinX` or the index just
before it is closer to the column's center. -/

def lineBestIdx (dataX : List ℚ) (centerX : ℚ) (startIdx count : ℕ) : ℕ :=
  if 0 < startIdx ∧ startIdx < count then
    if |key dataX (startIdx - 1) - centerX| < |key dataX startIdx - centerX|
    then startIdx - 1 else startIdx
  else if count ≤ startIdx ∧ 0 < count then count - 1
  else startIdx

/-- The single-sample record emitted by the line kernel's sparse case. -/

def lineSparseRecord (vminx vmaxx vminy vmaxy : ℚ) (dataX dataY : List ℚ)
    (bestIdx : ℕ) : LineData :=
  ⟨(key dataX bestIdx - vminx) / (vmaxx - vminx),
   1 - (key dataY bestIdx - vminy) / (vmaxy - vminy),
   1 - (key dataY bestIdx - vminy) / (vmaxy - vminy), 1⟩

/-- The aggregated record emitted by the line kernel's dense case
(`startIdx < endIdx`): min/max Y across the interval, stride-capped when
the interval exceeds `maxSamplesPerPixel`, flipped into screen space. -/

def lineAggRecord (width : ℕ) (vminx vmaxx vminy vmaxy : ℚ) (maxSamples : ℕ)
    (dataX dataY : List ℚ) (outputIdx : ℕ) : LineData :=
  let viewRangeX := vmaxx - vminx
  let viewRangeY := vmaxy - vminy
  let startIdx := colStart dataX vminx vmaxx width outputIdx
  let endIdx := colEnd dataX vminx vmaxx width outputIdx
  let centerX := (pixelBoundX vminx vmaxx width outputIdx +
    pixelBoundX vminx vmaxx width (outputIdx + 1)) * (1 / 2)
  let rangeCount := endIdx - startIdx
  let mm :=
    if 1 < maxSamples ∧ maxSamples < rangeCount
    then stridedMinMax dataY startIdx endIdx maxSamples
    else aggMinMax dataY startIdx endIdx
  let screenX := (centerX - vminx) / viewRangeX
  ⟨screenX, 1 - (mm.2 - vminy) / viewRangeY, 1 - (mm.1 - vminy) / viewRangeY, 1⟩

/-- One invocation of `LINE_COMPUTE_SHADER`'s `main` for output column
`outputIdx`. -/

def lineKernelColumn (width : ℕ) (vminx vmaxx vminy vmaxy : ℚ)
    (maxSamples : ℕ) (dataX dataY : List ℚ) (outputIdx : ℕ) : Option LineData :=
  let count := dataX.length
  if width ≤ outputIdx ∨ count = 0 then
    if outputIdx < width then some invalidLine else none
  else if vmaxx - vminx < 1 / 10000 ∨ vmaxy - vminy < 1 / 10000 then
    some invalidLine
  else
    let viewRangeX := vmaxx - vminx
    let viewRangeY := vmaxy - vminy
    let startIdx := colStart dataX vminx vmaxx width outputIdx
    let endIdx := colEnd dataX vminx vmaxx width outputIdx
    let centerX := (pixelBoundX vminx vmaxx width outputIdx +
      pixelBoundX vminx vmaxx width (outputIdx + 1)) * (1 / 2)
    if endIdx ≤ startIdx then
      let bestIdx := lineBestIdx dataX centerX startIdx count
      if count ≤ bestIdx then some invalidLine
      else some (lineSparseRecord vminx vmaxx vminy vmaxy dataX dataY bestIdx)
    else
      some (lineAggRecord width vminx vmaxx vminy vmaxy maxSamples dataX dataY
        outputIdx)

/-- `struct BarData` of the box compute/render shaders. -/

structure BarData where
  screenX : ℚ
  minY : ℚ
  maxY : ℚ
  barWidth : ℚ

deriving DecidableEq

def invalidBar : BarData := ⟨0, 0, 0, 0⟩

/-- `fn barHalfWidth(idx: u32, count: u32) -> f32` of the box kernel. -/

def barHalfWidth (dataX : List ℚ) (vminx vmaxx : ℚ) (seriesCount idx count : ℕ) : ℚ :=
  if count ≤ 1 then (vmaxx - vminx) * (2 / 5)
  else
    let spacing :=
      if idx = 0 then key dataX 1 - key dataX 0
      else if count - 1 ≤ idx then key dataX (count - 1) - key dataX (count - 2)
      else
        min (key dataX (idx + 1) - key dataX idx)
          (key dataX idx - key dataX (idx - 1))
    spacing * (2 / 5) / ((max 1 seriesCount : ℕ) : ℚ)

/-- The sparse-case candidate selection of the box kernel: pick the nearer
of the bar at/after the column and the bar just before it, among those
overlapping the column; returns `(bestX, bestY, bestHW)`.  `bestDist` is
initialised to `1e10` as in the shader. -/

def boxBestOf (ok0 ok1 : Prop) [Decidable ok0] [Decidable ok1]
    (bx0 y0 hw0 bx1 y1 hw1 centerX : ℚ) : ℚ × ℚ × ℚ :=
  let dist1 : ℚ := if ok1 then |bx1 - centerX| else 10 ^ 10
  if ok0 ∧ |bx0 - centerX| < dist1 then (bx0, y0, hw0)
  else if ok1 then (bx1, y1, hw1)
  else (0, 0, 0)

/-- The aggregated record emitted by the box kernel's dense case:
min/max Y across the interval (stride-capped), with the bar's center offset
by series index and its width from the neighbour spacing, minus a 5% gap,
floored at one pixel. -/

def boxAggRecord (width : ℕ) (vminx vmaxx : ℚ)
    (maxSamples seriesIndex seriesCount : ℕ)
    (dataX dataY : List ℚ) (outputIdx : ℕ) : BarData :=
  let count := dataX.length
  let viewRangeX := vmaxx - vminx
  let startIdx := colStart dataX vminx vmaxx width outputIdx
  let endIdx := colEnd dataX vminx vmaxx width outputIdx
  let onePixel := 1 / (width : ℚ)
  let sc := max 1 seriesCount
  let rangeCount := endIdx - startIdx
  let mm :=
    if 0 < maxSamples ∧ maxSamples < rangeCount
    then stridedMinMax dataY startIdx endIdx maxSamples
    else aggMinMax dataY startIdx endIdx
  let hw := barHalfWidth dataX vminx vmaxx seriesCount startIdx count
  let fullWidth := hw * 2 / viewRangeX
  let gapSize := max onePixel (fullWidth * (1 / 20))
  let bw := max (fullWidth - gapSize) onePixel
  let barOffset := ((seriesIndex : ℚ) - ((sc - 1 : ℕ) : ℚ) * (1 / 2)) * (hw * 2)
  let xCentered := key dataX startIdx + barOffset
  let normX := (xCentered - vminx) / viewRangeX
  ⟨normX, mm.1, mm.2, bw⟩

/-- One invocation of `BOX_COMPUTE_SHADER`'s `main` for output column
`outputIdx` (`seriesIndex` is the bound `SeriesIndex` uniform,
`seriesCount` is `u.seriesCount`). -/

def boxKernelColumn (width : ℕ) (vminx vmaxx vminy vmaxy : ℚ)
    (maxSamples seriesIndex seriesCount : ℕ)
    (dataX dataY : List ℚ) (outputIdx : ℕ) : Option BarData :=
  let count := dataX.length
  if width ≤ outputIdx ∨ count = 0 then
    if outputIdx < width then some invalidBar else none
  else if vmaxx - vminx < 1 / 10000 ∨ vmaxy - vminy < 1 / 10000 then
    some invalidBar
  else
    let viewRangeX := vmaxx - vminx
    let startIdx := colStart dataX vminx vmaxx width outputIdx
    let endIdx := colEnd dataX vminx vmaxx width outputIdx
    let pMin := pixelBoundX vminx vmaxx width outputIdx
    let pMax := pixelBoundX vminx vmaxx width (outputIdx + 1)
    let centerX := (pMin + pMax) * (1 / 2)
    let onePixel := 1 / (width : ℚ)
    let sc := max 1 seriesCount
    if endIdx ≤ startIdx then
      let bx1 := key dataX startIdx
      let hw1 := barHalfWidth dataX vminx vmaxx seriesCount startIdx count
      let ok1 := startIdx < count ∧ pMin < bx1 + hw1 ∧ bx1 - hw1 < pMax
      let bx0 := key dataX (startIdx - 1)
      let hw0 := barHalfWidth dataX vminx vmaxx seriesCount (startIdx - 1) count
      let ok0 := 0 < startIdx ∧ pMin < bx0 + hw0 ∧ bx0 - hw0 < pMax
      if ¬ok1 ∧ ¬ok0 then some invalidBar
      else
        let best := boxBestOf ok0 ok1 bx0 (key dataY (startIdx - 1)) hw0
          bx1 (key dataY startIdx) hw1 centerX
        let barOffset := ((seriesIndex : ℚ) - ((sc - 1 : ℕ) : ℚ) * (1 / 2)) * (best.2.2 * 2)
        let offsetX := best.1 + barOffset
        let normX := (offsetX - vminx) / viewRangeX
        let fullWidth := best.2.2 * 2 / viewRangeX
        let gapSize := max onePixel (fullWidth * (1 / 20))
        let bw := max (fullWidth - gapSize) onePixel
        some ⟨normX, best.2.1, best.2.1, bw⟩
    else
      some (boxAggRecord width vminx vmaxx maxSamples seriesIndex seriesCount
        dataX dataY outputIdx)

/-! ## Valid columns satisfy min ≤ max (claim C6) -/

/-! ## Decimation and global extrema (claim C1)

`viewportYs` is the reference brute-force scan: the Y values of all samples
whose X lies in the viewport window `[viewMinX, viewMaxX)`.  `lineColumns`
runs the line kernel over all `width` output columns; a record is valid
when its `valid` flag is 1.  `recordDataMinY`/`recordDataMaxY` invert the
kernel's screen-space transform `screenY = 1 - (y - viewMinY)/viewRangeY`
to recover the aggregated data-space extrema of a column. -/

def viewportYs (dataX dataY : List ℚ) (vminx vmaxx : ℚ) : List ℚ :=
  ((dataX.zip dataY).filter
    (fun p => decide (vminx ≤ p.1 ∧ p.1 < vmaxx))).map Prod.snd

def lineColumns (width : ℕ) (vminx vmaxx vminy vmaxy : ℚ) (maxSamples : ℕ)
    (dataX dataY : List ℚ) : List LineData :=
  (List.range width).filterMap
    (lineKernelColumn width vminx vmaxx vminy vmaxy maxSamples dataX dataY)

def validLineColumns (cols : List LineData) : List LineData :=
  cols.filter (fun d => decide (d.valid = 1))

def recordDataMinY (vminy vmaxy : ℚ) (d : LineData) : ℚ :=
  (1 - d.maxScreenY) * (vmaxy - vminy) + vminy

def recordDataMaxY (vminy vmaxy : ℚ) (d : LineData) : ℚ :=
  (1 - d.minScreenY) * (vmaxy - vminy) + vminy

def boxColumns (width : ℕ) (vminx vmaxx vminy vmaxy : ℚ)
    (maxSamples seriesIndex seriesCount : ℕ)
    (dataX dataY : List ℚ) : List BarData :=
  (List.range width).filterMap
    (boxKernelColumn width vminx vmaxx vminy vmaxy maxSamples seriesIndex
      seriesCount dataX dataY)

def validBoxColumns (cols : List BarData) : List BarData :=
  cols.filter (fun b => decide (0 < b.barWidth))

/-! ## The worker state machine (`src/gpu-worker.ts`)

The chart registry (`const charts = new Map<string, Chart>()`), the GPU
resources and the `onmessage` command handlers are modelled as a pure state
machine.  GPU objects are abstract handles (`ℕ`), allocated from
`nextHandle` and logged in `destroyed` when their `destroy()` is called, so
"no destroy or reallocation occurs" is expressible. -/

inductive MChartType
  | scatter
  | line
  | box

deriving DecidableEq

/-- `interface ChartSeriesData` with GPU objects as handles. -/

structure MSeries where
  label : String
  colorR : ℚ
  colorG : ℚ
  colorB : ℚ
  dataXh : ℕ
  dataYh : ℕ
  lineBuffer : Option ℕ
  seriesIndexBuffer : Option ℕ
  pointCount : ℕ
  visibleStart : ℕ
  visibleCount : ℕ
  computeBindGroup : Option ℕ
  renderBindGroup : Option ℕ

deriving DecidableEq

/-- `interface Chart` with GPU objects as handles. -/

structure MChart where
  ctype : MChartType
  visible : Bool
  pointSize : ℚ
  maxSamplesPerPixel : ℕ
  series : List MSeries
  uniformBuffer : ℕ
  seriesStorageBuffer : Option ℕ
  outputTexture : Option ℕ
  outputTextureView : Option ℕ
  fxaaBindGroup : Option ℕ
  width : ℕ
  height : ℕ
  canvasWidth : ℕ
  canvasHeight : ℕ
  panX : ℚ
  panY : ℚ
  zoomX : ℚ
  zoomY : ℚ
  minX : ℚ
  maxX : ℚ
  minY : ℚ
  maxY : ℚ
  dirty : Bool

deriving DecidableEq

structure WorkerState where
  charts : List (String × MChart)
  renderScheduled : Bool
  nextHandle : ℕ
  destroyed : List ℕ

deriving DecidableEq

def optList : Option ℕ → List ℕ
  | none => []
  | some h => [h]

def lookupChart : List (String × MChart) → String → Option MChart
  | [], _ => none
  | e :: rest, id => if e.1 = id then some e.2 else lookupChart rest id

def updateChart (reg : List (String × MChart)) (id : String)
    (f : MChart → MChart) : List (String × MChart) :=
  reg.map (fun e => if e.1 = id then (e.1, f e.2) else e)

/-- `charts.delete(id)`. -/

def removeChart : List (String × MChart) → String → List (String × MChart)
  | [], _ => []
  | e :: rest, id =>
    if e.1 = id then removeChart rest id else e :: removeChart rest id

/-- The Parameter Block's viewport window as written by `writeUniforms`:
`(viewMinX, viewMaxX, viewMinY, viewMaxY)` derived from bounds × pan/zoom. -/

def viewWindow (c : MChart) : ℚ × ℚ × ℚ × ℚ :=
  let rx := c.maxX - c.minX
  let ry := c.maxY - c.minY
  (c.minX + c.panX * rx, c.minX + c.panX * rx + rx / c.zoomX,
   c.minY + c.panY * ry, c.minY + c.panY * ry + ry / c.zoomY)

/-- `Math.max(0.1, Math.min(1000000, z))` — the engine-side zoom clamp. -/

def clampZoom (z : ℚ) : ℚ := max (1 / 10) (min 1000000 z)

/-- `createChartResources`: destroys the old off-screen texture and
allocates a new texture, view and FXAA binding set. -/

def createChartResources (c : MChart) (next : ℕ) : MChart × ℕ × List ℕ :=
  ({ c with
      outputTexture := some next
      outputTextureView := some (next + 1)
      fxaaBindGroup := some (next + 2) },
   next + 3, optList c.outputTexture)

/-- `buildSeriesBindGroups` for one series: early-returns without the
per-chart series storage buffer; otherwise destroys and reallocates the
per-series buffers and binding sets for the chart's type. -/

def buildSeriesBindGroups (ctype : MChartType) (hasStorage : Bool)
    (s : MSeries) (next : ℕ) : MSeries × ℕ × List ℕ :=
  if !hasStorage then (s, next, [])
  else
    match ctype with
    | .scatter =>
        ({ s with
            seriesIndexBuffer := some next
            computeBindGroup := some (next + 1) },
         next + 2, optList s.seriesIndexBuffer)
    | .line =>
        ({ s with
            lineBuffer := some next
            computeBindGroup := some (next + 1)
            renderBindGroup := some (next + 2) },
         next + 3, optList s.lineBuffer)
    | .box =>
        ({ s with
            lineBuffer := some next
            seriesIndexBuffer := some (next + 1)
            computeBindGroup := some (next + 2)
            renderBindGroup := some (next + 3) },
         next + 4, optList s.lineBuffer ++ optList s.seriesIndexBuffer)

/-- `resizeChart(chart, width, height)`: no-op when the dimensions are
unchanged or non-positive, otherwise reallocates the off-screen target and
rebuilds every series' binding sets. -/

def resizeChart (c : MChart) (next : ℕ) (w h : ℕ) : MChart × ℕ × List ℕ :=
  if w = c.width ∧ h = c.height then (c, next, [])
  else if w = 0 ∨ h = 0 then (c, next, [])
  else
    let c1 := { c with
      width := w
      height := h
      canvasWidth := w
      canvasHeight := h }
    let r2 := createChartResources c1 next
    let r3 := r2.1.series.foldl
      (fun (acc : List MSeries × ℕ × List ℕ) s =>
        let r := buildSeriesBindGroups r2.1.ctype r2.1.seriesStorageBuffer.isSome
          s acc.2.1
        (r.1 :: acc.1, r.2.1, acc.2.2 ++ r.2.2))
      ([], r2.2.1, r2.2.2)
    ({ r2.1 with series := r3.1.reverse }, r3.2.1, r3.2.2)

/-- `case "view-transform"` of the message handler: clamp the zoom pair,
assign pan/zoom and mark dirty (scheduling a render if visible). -/

def onViewTransform (st : WorkerState) (id : String)
    (panX panY zoomX zoomY : ℚ) : WorkerState :=
  match lookupChart st.charts id with
  | none => st
  | some c =>
      { st with
        charts := updateChart st.charts id (fun c0 =>
          { c0 with
            panX := panX
            panY := panY
            zoomX := clampZoom zoomX
            zoomY := clampZoom zoomY
            dirty := true })
        renderScheduled := st.renderScheduled || c.visible }

/-- The per-chart assignment of `batch-view-transform`: one pan pair and
one pre-clamped zoom pair, and the dirty flag. -/

def batchApplyView (panX panY zX zY : ℚ) (c : MChart) : MChart :=
  { c with
    panX := panX
    panY := panY
    zoomX := zX
    zoomY := zY
    dirty := true }

/-- `case "batch-view-transform"`: clamp the zoom pair once, assign the
same pan/zoom to every targeted chart that exists, mark each dirty, then
schedule one render. -/

def onBatchViewTransform (st : WorkerState) (panX panY zoomX zoomY : ℚ)
    (ids : List String) : WorkerState :=
  let zX := clampZoom zoomX
  let zY := clampZoom zoomY
  { st with
    charts := ids.foldl
      (fun reg id => updateChart reg id (batchApplyView panX panY zX zY))
      st.charts
    renderScheduled := true }

/-- `case "sync-view"`: assign the raw (unclamped) pan/zoom to every chart,
then mark all dirty. -/

def onSyncView (st : WorkerState) (panX panY zoomX zoomY : ℚ) : WorkerState :=
  let reg := st.charts.map (fun e => (e.1,
    { e.2 with panX := panX, panY := panY, zoomX := zoomX, zoomY := zoomY }))
  let reg2 := reg.map (fun e => (e.1, { e.2 with dirty := true }))
  { st with
    charts := reg2
    renderScheduled := st.renderScheduled || reg2.any (fun e => e.2.visible) }

/-- `case "set-visibility"`: set the flag; schedule a render only when
becoming visible with the dirty flag still set. -/

def onSetVisibility (st : WorkerState) (id : String) (v : Bool) : WorkerState :=
  match lookupChart st.charts id with
  | none => st
  | some c =>
      { st with
        charts := updateChart st.charts id (fun c0 => { c0 with visible := v })
        renderScheduled := st.renderScheduled || (v && c.dirty) }

/-- `case "resize"`: ignored for unknown ids or non-positive dimensions;
otherwise resize then mark dirty. -/

def onResize (st : WorkerState) (id : String) (w h : ℕ) : WorkerState :=
  match lookupChart st.charts id with
  | none => st
  | some c =>
      if 0 < w ∧ 0 < h then
        let r := resizeChart c st.nextHandle w h
        { st with
          charts := updateChart st.charts id (fun _ => { r.1 with dirty := true })
          nextHandle := r.2.1
          destroyed := st.destroyed ++ r.2.2
          renderScheduled := st.renderScheduled || r.1.visible }
      else st

inductive MEvent
  | chartUnregistered (id : String)

deriving DecidableEq

/-- The externally observable actions of the `unregister-chart` handler, in
program order. -/

inductive WAction
  | unconfigure (id : String)
  | destroyHandle (h : ℕ)
  | deleteRegistryEntry (id : String)
  | emitEvent (ev : MEvent)

deriving DecidableEq

def seriesDestroyHandles (s : MSeries) : List ℕ :=
  [s.dataXh, s.dataYh] ++ optList s.lineBuffer ++ optList s.seriesIndexBuffer

/-- The handles destroyed by `unregister-chart` for one chart, in program
order: uniform buffer, series storage buffer, off-screen texture, then each
series' buffers. -/

def chartDestroyHandles (c : MChart) : List ℕ :=
  [c.uniformBuffer] ++ optList c.seriesStorageBuffer ++
    optList c.outputTexture ++ c.series.flatMap seriesDestroyHandles

/-- `case "unregister-chart"`: when the chart exists, unconfigure its
context, destroy every owned resource, remove it from the registry, and in
all cases post `chart-unregistered`. -/

def onUnregisterChart (st : WorkerState) (id : String) :
    WorkerState × List WAction :=
  match lookupChart st.charts id with
  | some c =>
      ({ st with
          charts := removeChart st.charts id
          destroyed := st.destroyed ++ chartDestroyHandles c },
       WAction.unconfigure id ::
         (chartDestroyHandles c).map WAction.destroyHandle ++
         [WAction.deleteRegistryEntry id,
          WAction.emitEvent (MEvent.chartUnregistered id)])
  | none => (st, [WAction.emitEvent (MEvent.chartUnregistered id)])

/-- `render(chart)` submits a command buffer unless the chart has zero
size or no series (the early returns in `render`). -/

def renderSubmits (c : MChart) : Bool :=
  !(c.width = 0 || c.height = 0) && !(c.series.length = 0)

def renderFlag (c : MChart) : Bool :=
  c.visible && c.dirty && decide (0 < c.width)

def renderStepChart (c : MChart) : MChart :=
  if renderFlag c then { c with dirty := false } else c

/-- Result of one `renderFrame` callback: the new state, the charts the
scheduler rendered (dirty flags cleared), and among those the charts whose
command buffer was actually submitted. -/

structure FrameResult where
  state : WorkerState
  rendered : List String
  submitted : List String

deriving DecidableEq

/-- `renderFrame()`: clear the scheduling flag, then render every visible,
dirty, non-zero-width chart and clear its dirty flag; invisible or clean
charts are left untouched. -/

def renderFrame (st : WorkerState) : FrameResult :=
  { state := { st with
      renderScheduled := false
      charts := st.charts.map (fun e => (e.1, renderStepChart e.2)) }
    rendered := (st.charts.filter (fun e => renderFlag e.2)).map Prod.fst
    submitted := (st.charts.filter
      (fun e => renderFlag e.2 && renderSubmits e.2)).map Prod.fst }

/-! ## The scatter (point-stamp) kernel and division instrumentation

`SCATTER_COMPUTE_SHADER` writes pixels directly; one invocation handles one
sample and returns the list of pixels stored.  The `…ViewDivs` functions
mirror each kernel's control flow and list every divisor of the form
`viewRange` used on the taken path, so "no division by the zero-or-negative
view range" is expressible. -/

/-- WGSL `i32(x)` of a float: truncation toward zero. -/

def i32trunc (q : ℚ) : ℤ := Int.div q.num (q.den : ℤ)

/-- `for (var d = -radius; d <= radius; d++)` — empty for negative radius. -/

def loopRange (radius : ℤ) : List ℤ :=
  if radius < 0 then []
  else (List.range (2 * radius.toNat + 1)).map (fun k => (k : ℤ) - radius)

/-- The filled-disk write loop of the scatter kernel, with bounds checks. -/

def scatterDiskWrites (pixelX pixelY radius iWidth iHeight : ℤ) : List (ℤ × ℤ) :=
  (loopRange radius).flatMap (fun dy =>
    (loopRange radius).filterMap (fun dx =>
      if radius * radius < dx * dx + dy * dy then none
      else
        let px := pixelX + dx
        let py := pixelY + dy
        if 0 ≤ px ∧ px < iWidth ∧ 0 ≤ py ∧ py < iHeight then some (px, py)
        else none))

/-- One invocation of `SCATTER_COMPUTE_SHADER`'s `main` for thread
`(idx, idy)`; returns the pixels written.  `visStart`, `visCount` and
`pointSize` are the bound series' `SeriesInfo` fields. -/

def scatterKernelSample (width height : ℕ) (vminx vmaxx vminy vmaxy : ℚ)
    (dispatchXCount visStart visCount : ℕ) (pointSize : ℚ)
    (dataX dataY : List ℚ) (idx idy : ℕ) : List (ℤ × ℤ) :=
  let localIdx := idy * dispatchXCount + idx
  if visCount ≤ localIdx then []
  else
    let i := visStart + localIdx
    let count := dataX.length
    if count ≤ i then []
    else
      let x := key dataX i
      let y := key dataY i
      if y < vminy ∨ vmaxy < y then []
      else
        let rangeX := vmaxx - vminx
        let rangeY := vmaxy - vminy
        if rangeX < 1 / 10000 ∨ rangeY < 1 / 10000 then []
        else
          let normX := (x - vminx) / rangeX
          let normY := (y - vminy) / rangeY
          let pixelX := i32trunc (normX * (width : ℚ))
          let pixelY := i32trunc ((1 - normY) * (height : ℚ))
          let collide :=
            visStart < i ∧
              pixelX = i32trunc ((key dataX (i - 1) - vminx) / rangeX * (width : ℚ)) ∧
              pixelY = i32trunc ((1 - (key dataY (i - 1) - vminy) / rangeY) * (height : ℚ))
          if collide then []
          else
            let iWidth : ℤ := width
            let iHeight : ℤ := height
            if pixelX < 0 ∨ iWidth ≤ pixelX ∨ pixelY < 0 ∨ iHeight ≤ pixelY then []
            else scatterDiskWrites pixelX pixelY (i32trunc pointSize) iWidth iHeight

/-- The view-range divisors used by one line-kernel invocation, following
its control flow: none on the guard paths, `normX`/`screenY` divisors on
the sparse path, `screenX`/`normMaxY`/`normMinY` divisors on the dense
path. -/

def lineKernelColumnViewDivs (width : ℕ) (vminx vmaxx vminy vmaxy : ℚ)
    (maxSamples : ℕ) (dataX dataY : List ℚ) (outputIdx : ℕ) : List ℚ :=
  let count := dataX.length
  if width ≤ outputIdx ∨ count = 0 then []
  else if vmaxx - vminx < 1 / 10000 ∨ vmaxy - vminy < 1 / 10000 then []
  else
    let startIdx := colStart dataX vminx vmaxx width outputIdx
    let endIdx := colEnd dataX vminx vmaxx width outputIdx
    let centerX := (pixelBoundX vminx vmaxx width outputIdx +
      pixelBoundX vminx vmaxx width (outputIdx + 1)) * (1 / 2)
    if endIdx ≤ startIdx then
      if count ≤ lineBestIdx dataX centerX startIdx count then []
      else [vmaxy - vminy, vmaxx - vminx]
    else [vmaxx - vminx, vmaxy - vminy, vmaxy - vminy]

/-- The view-range divisors used by one box-kernel invocation (`normX` and
`fullWidth` divide by `viewRangeX`; the box kernel never divides by the Y
range). -/

def boxKernelColumnViewDivs (width seriesCount : ℕ)
    (vminx vmaxx vminy vmaxy : ℚ)
    (dataX : List ℚ) (outputIdx : ℕ) : List ℚ :=
  let count := dataX.length
  if width ≤ outputIdx ∨ count = 0 then []
  else if vmaxx - vminx < 1 / 10000 ∨ vmaxy - vminy < 1 / 10000 then []
  else
    let startIdx := colStart dataX vminx vmaxx width outputIdx
    let endIdx := colEnd dataX vminx vmaxx width outputIdx
    let pMin := pixelBoundX vminx vmaxx width outputIdx
    let pMax := pixelBoundX vminx vmaxx width (outputIdx + 1)
    if endIdx ≤ startIdx then
      let bx1 := key dataX startIdx
      let hw1 := barHalfWidth dataX vminx vmaxx seriesCount startIdx count
      let bx0 := key dataX (startIdx - 1)
      let hw0 := barHalfWidth dataX vminx vmaxx seriesCount (startIdx - 1) count
      if ¬(startIdx < count ∧ pMin < bx1 + hw1 ∧ bx1 - hw1 < pMax) ∧
          ¬(0 < startIdx ∧ pMin < bx0 + hw0 ∧ bx0 - hw0 < pMax) then []
      else [vmaxx - vminx, vmaxx - vminx]
    else [vmaxx - vminx, vmaxx - vminx]

/-- The view-range divisors used by one scatter-kernel invocation: the
sample's `normX`/`normY`, plus the previous sample's when the
consecutive-same-pixel test runs. -/

def scatterKernelSampleViewDivs (width height : ℕ)
    (vminx vmaxx vminy vmaxy : ℚ) (dispatchXCount visStart visCount : ℕ)
    (dataX dataY : List ℚ) (idx idy : ℕ) : List ℚ :=
  let localIdx := idy * dispatchXCount + idx
  if visCount ≤ localIdx then []
  else
    let i := visStart + localIdx
    let count := dataX.length
    if count ≤ i then []
    else
      let y := key dataY i
      if y < vminy ∨ vmaxy < y then []
      else if vmaxx - vminx < 1 / 10000 ∨ vmaxy - vminy < 1 / 10000 then []
      else
        [vmaxx - vminx, vmaxy - vminy] ++
          (if visStart < i then [vmaxx - vminx, vmaxy - vminy] else [])

/-- A concrete registered line chart used by the witnesses. -/

def sampleSeries : MSeries where
  label := "s0"
  colorR := 1
  colorG := 0
  colorB := 0
  dataXh := 100
  dataYh := 101
  lineBuffer := some 102
  seriesIndexBuffer := none
  pointCount := 3
  visibleStart := 0
  visibleCount := 3
  computeBindGroup := some 103
  renderBindGroup := some 104

def sampleChart : MChart where
  ctype := .line
  visible := true
  pointSize := 3
  maxSamplesPerPixel := 100
  series := [sampleSeries]
  uniformBuffer := 1
  seriesStorageBuffer := some 2
  outputTexture := some 3
  outputTextureView := some 4
  fxaaBindGroup := some 5
  width := 800
  height := 400
  canvasWidth := 800
  canvasHeight := 400
  panX := 0
  panY := 0
  zoomX := 1
  zoomY := 1
  minX := 0
  maxX := 1
  minY := 0
  maxY := 1
  dirty := true

def sampleState : WorkerState where
  charts := [("a", sampleChart)]
  renderScheduled := false
  nextHandle := 200
  destroyed := []

/-- A chart whose data bounds are collapsed (`minX = maxX`), so its
Parameter Block viewport window violates `viewMinX < viewMaxX`. -/

def degenerateChart : MChart := { sampleChart with maxX := 0 }

def degenerateState : WorkerState where
  charts := [("a", degenerateChart)]
  renderScheduled := true
  nextHandle := 200
  destroyed := []

/-! ## Registry lemmas -/

def zoomInBounds (c : MChart) : Prop :=
  1 / 10 ≤ c.zoomX ∧ c.zoomX ≤ 1000000 ∧ 1 / 10 ≤ c.zoomY ∧ c.zoomY ≤ 1000000

/-- The per-series effective point radius computed by the adaptive throttle
in renderChartWithFXAA for scatter charts (gpu-worker.ts): if the estimated
pixel coverage visCount * pi * r^2 exceeds the budget 4 * width * height,
the rendered radius is shrunk to max(1, sqrt(budget / (visCount * pi))). -/

noncomputable def effectivePointSize (width height : ℕ) (pointSize : ℝ)
    (visibleCount : ℕ) : ℝ :=
  if max 1 ((visibleCount : ℝ)) * (Real.pi * pointSize * pointSize) >
      ((width : ℝ) * (height : ℝ)) * 4 then
    max 1 (Real.sqrt ((((width : ℝ) * (height : ℝ)) * 4) /
      (max 1 ((visibleCount : ℝ)) * Real.pi)))
  else pointSize

theorem lowerBoundGo_le (dataX : List ℚ) (val : ℚ) :
    ∀ fuel lo hi, lo ≤ hi → lowerBoundGo dataX val fuel lo hi ≤ hi := by
  intro fuel
  induction fuel with
  | zero => intro lo hi h; simpa [lowerBoundGo] using h
  | succ n ih =>
    intro lo hi h
    simp only [lowerBoundGo]
    split
    · split
      · exact ih _ _ (by omega)
      · exact le_trans (ih _ _ (by omega)) (by omega)
    · exact h

theorem le_lowerBoundGo (dataX : List ℚ) (val : ℚ) :
    ∀ fuel lo hi, lo ≤ lowerBoundGo dataX val fuel lo hi := by
  intro fuel
  induction fuel with
  | zero => intro lo hi; simp [lowerBoundGo]
  | succ n ih =>
    intro lo hi
    simp only [lowerBoundGo]
    split
    · split
      · exact le_trans (by omega) (ih _ _)
      · exact ih _ _
    · exact le_rfl

/-- Core invariant argument for the binary search: with enough fuel and a
sorted array, the result is the least index whose key is not less than
`val`, within the searched window. -/
theorem lowerBoundGo_spec (dataX : List ℚ) (val : ℚ) (count : ℕ)
    (hs : SortedKeys dataX count) :
    ∀ fuel lo hi, hi - lo ≤ fuel → hi ≤ count →
      (∀ j, j < lo → key dataX j < val) →
      (∀ j, hi ≤ j → j < count → val ≤ key dataX j) →
      (∀ j, j < lowerBoundGo dataX val fuel lo hi → key dataX j < val) ∧
      (∀ j, lowerBoundGo dataX val fuel lo hi ≤ j → j < count → val ≤ key dataX j) := by
  intro fuel
  induction fuel with
  | zero =>
    intro lo hi hfuel hhi hlo hhi2
    have : lowerBoundGo dataX val 0 lo hi = lo := rfl
    rw [this]
    refine ⟨hlo, fun j hj1 hj2 => ?_⟩
    exact hhi2 j (by omega) hj2
  | succ n ih =>
    intro lo hi hfuel hhi hlo hhi2
    simp only [lowerBoundGo]
    split
    · rename_i hlt
      split
      · rename_i hmid
        refine ih ((lo + hi) / 2 + 1) hi (by omega) hhi ?_ hhi2
        intro j hj
        rcases lt_or_ge j lo with h | h
        · exact hlo j h
        · calc key dataX j ≤ key dataX ((lo + hi) / 2) := by
                rcases eq_or_lt_of_le (Nat.le_of_lt_succ hj) with h2 | h2
                · rw [h2]
                · exact hs _ (by omega) _ h2
            _ < val := hmid
      · rename_i hmid
        refine ih lo ((lo + hi) / 2) (by omega) (by omega) hlo ?_
        intro j hj1 hj2
        have hv : val ≤ key dataX ((lo + hi) / 2) := le_of_not_lt hmid
        rcases eq_or_lt_of_le hj1 with h2 | h2
        · rw [← h2]; exact hv
        · rcases lt_or_ge j hi with h3 | h3
          · exact le_trans hv (hs _ (by omega) _ h2)
          · exact hhi2 j h3 hj2
    · rename_i hge
      refine ⟨hlo, fun j hj1 hj2 => hhi2 j (by omega) hj2⟩

theorem lowerBound_le (dataX : List ℚ) (val : ℚ) (count : ℕ) :
    lowerBound dataX val count ≤ count :=
  lowerBoundGo_le dataX val count 0 count (Nat.zero_le _)

theorem lowerBound_lt_val (dataX : List ℚ) (val : ℚ) (count : ℕ)
    (hs : SortedKeys dataX count) :
    ∀ j, j < lowerBound dataX val count → key dataX j < val :=
  (lowerBoundGo_spec dataX val count hs count 0 count (by omega) le_rfl
    (by omega) (by omega)).1

theorem lowerBound_le_val (dataX : List ℚ) (val : ℚ) (count : ℕ)
    (hs : SortedKeys dataX count) :
    ∀ j, lowerBound dataX val count ≤ j → j < count → val ≤ key dataX j :=
  (lowerBoundGo_spec dataX val count hs count 0 count (by omega) le_rfl
    (by omega) (by omega)).2

theorem lowerBound_mono (dataX : List ℚ) (count : ℕ) (hs : SortedKeys dataX count)
    (v1 v2 : ℚ) (h : v1 ≤ v2) :
    lowerBound dataX v1 count ≤ lowerBound dataX v2 count := by
  by_contra hcon
  push_neg at hcon
  have h1 : key dataX (lowerBound dataX v2 count) < v1 :=
    lowerBound_lt_val dataX v1 count hs _ hcon
  have h2 : v2 ≤ key dataX (lowerBound dataX v2 count) :=
    lowerBound_le_val dataX v2 count hs _ le_rfl
      (lt_of_lt_of_le hcon (lowerBound_le dataX v1 count))
  linarith

/-- Claim C7: for every ascending-sorted key array and every count within
bounds, `lowerBound` returns the first index whose key is not less than
the query value, and it is monotone in the query value. -/
theorem lowerBound_first_index_and_monotone
    (dataX : List ℚ) (count : ℕ) (hcount : count ≤ dataX.length)
    (hs : SortedKeys dataX count) :
    (∀ val : ℚ,
        lowerBound dataX val count ≤ count ∧
        (∀ j, j < lowerBound dataX val count → key dataX j < val) ∧
        (lowerBound dataX val count < count →
          val ≤ key dataX (lowerBound dataX val count))) ∧
    (∀ v1 v2 : ℚ, v1 ≤ v2 →
        lowerBound dataX v1 count ≤ lowerBound dataX v2 count) := by
  refine ⟨fun val => ⟨lowerBound_le dataX val count,
      lowerBound_lt_val dataX val count hs, fun h =>
      lowerBound_le_val dataX val count hs _ le_rfl h⟩,
    lowerBound_mono dataX count hs⟩

/-- Witness for C7 on a concrete sorted array. -/
theorem lowerBound_first_index_and_monotone_witness :
    (3 ≤ ([1, 2, 3] : List ℚ).length ∧ SortedKeys [1, 2, 3] 3) ∧
    (∀ v1 v2 : ℚ, v1 ≤ v2 →
        lowerBound [1, 2, 3] v1 3 ≤ lowerBound [1, 2, 3] v2 3) :=
  ⟨⟨by decide, by decide⟩,
    (lowerBound_first_index_and_monotone [1, 2, 3] 3 (by decide) (by decide)).2⟩

theorem foldl_min_le (l : List ℚ) : ∀ a : ℚ,
    l.foldl min a ≤ a ∧ ∀ z ∈ l, l.foldl min a ≤ z := by
  induction l with
  | nil => intro a; simp
  | cons y ys ih =>
    intro a
    refine ⟨le_trans (ih (min a y)).1 (min_le_left _ _), ?_⟩
    intro z hz
    rcases List.mem_cons.1 hz with h | h
    · subst h; exact le_trans (ih (min a z)).1 (min_le_right _ _)
    · exact (ih (min a y)).2 z h

theorem le_foldl_max (l : List ℚ) : ∀ a : ℚ,
    a ≤ l.foldl max a ∧ ∀ z ∈ l, z ≤ l.foldl max a := by
  induction l with
  | nil => intro a; simp
  | cons y ys ih =>
    intro a
    refine ⟨le_trans (le_max_left _ _) (ih (max a y)).1, ?_⟩
    intro z hz
    rcases List.mem_cons.1 hz with h | h
    · subst h; exact le_trans (le_max_right _ _) (ih (max a z)).1
    · exact (ih (max a y)).2 z h

theorem foldl_min_mem (l : List ℚ) : ∀ a : ℚ,
    l.foldl min a = a ∨ l.foldl min a ∈ l := by
  induction l with
  | nil => intro a; simp
  | cons y ys ih =>
    intro a
    rcases ih (min a y) with h | h
    · rcases min_cases a y with ⟨h2, _⟩ | ⟨h2, _⟩
      · left; rw [List.foldl_cons, h, h2]
      · right; rw [List.foldl_cons, h, h2]; exact List.mem_cons_self _ _
    · right; exact List.mem_cons_of_mem _ h

theorem foldl_max_mem (l : List ℚ) : ∀ a : ℚ,
    l.foldl max a = a ∨ l.foldl max a ∈ l := by
  induction l with
  | nil => intro a; simp
  | cons y ys ih =>
    intro a
    rcases ih (max a y) with h | h
    · rcases max_cases a y with ⟨h2, _⟩ | ⟨h2, _⟩
      · left; rw [List.foldl_cons, h, h2]
      · right; rw [List.foldl_cons, h, h2]; exact List.mem_cons_self _ _
    · right; exact List.mem_cons_of_mem _ h

theorem listMin_eq_some (l : List ℚ) (v : ℚ) (hmem : v ∈ l)
    (hlb : ∀ z ∈ l, v ≤ z) : listMin l = some v := by
  match l with
  | [] => exact absurd hmem (List.not_mem_nil v)
  | y :: ys =>
    simp only [listMin, Option.some_inj]
    have hle : ys.foldl min y ≤ v := by
      rcases List.mem_cons.1 hmem with h | h
      · rw [h]; exact (foldl_min_le ys y).1
      · exact (foldl_min_le ys y).2 v h
    have hge : v ≤ ys.foldl min y := by
      rcases foldl_min_mem ys y with h | h
      · rw [h]; exact hlb y (List.mem_cons_self _ _)
      · exact hlb _ (List.mem_cons_of_mem _ h)
    linarith

theorem listMax_eq_some (l : List ℚ) (v : ℚ) (hmem : v ∈ l)
    (hub : ∀ z ∈ l, z ≤ v) : listMax l = some v := by
  match l with
  | [] => exact absurd hmem (List.not_mem_nil v)
  | y :: ys =>
    simp only [listMax, Option.some_inj]
    have hle : v ≤ ys.foldl max y := by
      rcases List.mem_cons.1 hmem with h | h
      · rw [h]; exact (le_foldl_max ys y).1
      · exact (le_foldl_max ys y).2 v h
    have hge : ys.foldl max y ≤ v := by
      rcases foldl_max_mem ys y with h | h
      · rw [h]; exact hub y (List.mem_cons_self _ _)
      · exact hub _ (List.mem_cons_of_mem _ h)
    linarith

theorem idxMinAux_le (y : ℕ → ℚ) (a : ℕ) :
    ∀ n k, k ≤ n → idxMinAux y a n ≤ y (a + k) := by
  intro n
  induction n with
  | zero => intro k hk; interval_cases k; simp [idxMinAux]
  | succ m ih =>
    intro k hk
    rcases Nat.lt_or_ge k (m + 1) with h | h
    · exact le_trans (min_le_left _ _) (ih k (by omega))
    · have : k = m + 1 := by omega
      subst this
      simpa [idxMinAux, Nat.add_assoc] using min_le_right (idxMinAux y a m) (y (a + m + 1))

theorem le_idxMaxAux (y : ℕ → ℚ) (a : ℕ) :
    ∀ n k, k ≤ n → y (a + k) ≤ idxMaxAux y a n := by
  intro n
  induction n with
  | zero => intro k hk; interval_cases k; simp [idxMaxAux]
  | succ m ih =>
    intro k hk
    rcases Nat.lt_or_ge k (m + 1) with h | h
    · exact le_trans (ih k (by omega)) (le_max_left _ _)
    · have : k = m + 1 := by omega
      subst this
      simpa [idxMaxAux, Nat.add_assoc] using le_max_right (idxMaxAux y a m) (y (a + m + 1))

theorem idxMinAux_attained (y : ℕ → ℚ) (a : ℕ) :
    ∀ n, ∃ k, k ≤ n ∧ idxMinAux y a n = y (a + k) := by
  intro n
  induction n with
  | zero => exact ⟨0, le_rfl, by simp [idxMinAux]⟩
  | succ m ih =>
    rcases ih with ⟨k, hk, heq⟩
    rcases min_cases (idxMinAux y a m) (y (a + m + 1)) with ⟨h, _⟩ | ⟨h, _⟩
    · exact ⟨k, by omega, by rw [idxMinAux, h, heq]⟩
    · exact ⟨m + 1, le_rfl, by rw [idxMinAux, h, Nat.add_assoc]⟩

theorem idxMaxAux_attained (y : ℕ → ℚ) (a : ℕ) :
    ∀ n, ∃ k, k ≤ n ∧ idxMaxAux y a n = y (a + k) := by
  intro n
  induction n with
  | zero => exact ⟨0, le_rfl, by simp [idxMaxAux]⟩
  | succ m ih =>
    rcases ih with ⟨k, hk, heq⟩
    rcases max_cases (idxMaxAux y a m) (y (a + m + 1)) with ⟨h, _⟩ | ⟨h, _⟩
    · exact ⟨k, by omega, by rw [idxMaxAux, h, heq]⟩
    · exact ⟨m + 1, le_rfl, by rw [idxMaxAux, h, Nat.add_assoc]⟩

theorem idxMin_le (y : ℕ → ℚ) (a b j : ℕ) (h1 : a ≤ j) (h2 : j < b) :
    idxMin y a b ≤ y j := by
  have : j = a + (j - a) := by omega
  rw [idxMin, this]
  exact idxMinAux_le y a _ _ (by omega)

theorem le_idxMax (y : ℕ → ℚ) (a b j : ℕ) (h1 : a ≤ j) (h2 : j < b) :
    y j ≤ idxMax y a b := by
  have : j = a + (j - a) := by omega
  rw [idxMax, this]
  exact le_idxMaxAux y a _ _ (by omega)

theorem idxMin_attained (y : ℕ → ℚ) (a b : ℕ) (h : a < b) :
    ∃ j, a ≤ j ∧ j < b ∧ idxMin y a b = y j := by
  rcases idxMinAux_attained y a (b - a - 1) with ⟨k, hk, heq⟩
  exact ⟨a + k, by omega, by omega, heq⟩

theorem idxMax_attained (y : ℕ → ℚ) (a b : ℕ) (h : a < b) :
    ∃ j, a ≤ j ∧ j < b ∧ idxMax y a b = y j := by
  rcases idxMaxAux_attained y a (b - a - 1) with ⟨k, hk, heq⟩
  exact ⟨a + k, by omega, by omega, heq⟩

theorem idxMin_union (y : ℕ → ℚ) (a b c : ℕ) (hab : a < b) (hbc : b < c) :
    min (idxMin y a b) (idxMin y b c) = idxMin y a c := by
  obtain ⟨m, rfl⟩ : ∃ m, c = b + m + 1 := ⟨c - b - 1, by omega⟩
  induction m with
  | zero =>
    have h1 : idxMin y b (b + 0 + 1) = y b := by simp [idxMin, idxMinAux]
    have h2 : idxMin y a (b + 0 + 1) =
        min (idxMinAux y a (b - a - 1)) (y b) := by
      have hb : b + 0 + 1 - a - 1 = (b - a - 1) + 1 := by omega
      rw [idxMin, hb, idxMinAux]
      congr 2
      omega
    rw [h1, h2, idxMin]
  | succ m ih =>
    have ih2 := ih (by omega)
    have h1 : idxMin y b (b + (m + 1) + 1) =
        min (idxMin y b (b + m + 1)) (y (b + m + 1)) := by
      have hb : b + (m + 1) + 1 - b - 1 = (b + m + 1 - b - 1) + 1 := by omega
      rw [idxMin, hb, idxMinAux, idxMin]
      congr 2
      omega
    have h2 : idxMin y a (b + (m + 1) + 1) =
        min (idxMin y a (b + m + 1)) (y (b + m + 1)) := by
      have hb : b + (m + 1) + 1 - a - 1 = (b + m + 1 - a - 1) + 1 := by omega
      rw [idxMin, hb, idxMinAux, idxMin]
      congr 2
      omega
    rw [h1, h2, ← ih2, min_assoc]

theorem idxMax_union (y : ℕ → ℚ) (a b c : ℕ) (hab : a < b) (hbc : b < c) :
    max (idxMax y a b) (idxMax y b c) = idxMax y a c := by
  obtain ⟨m, rfl⟩ : ∃ m, c = b + m + 1 := ⟨c - b - 1, by omega⟩
  induction m with
  | zero =>
    have h1 : idxMax y b (b + 0 + 1) = y b := by simp [idxMax, idxMaxAux]
    have h2 : idxMax y a (b + 0 + 1) =
        max (idxMaxAux y a (b - a - 1)) (y b) := by
      have hb : b + 0 + 1 - a - 1 = (b - a - 1) + 1 := by omega
      rw [idxMax, hb, idxMaxAux]
      congr 2
      omega
    rw [h1, h2, idxMax]
  | succ m ih =>
    have ih2 := ih (by omega)
    have h1 : idxMax y b (b + (m + 1) + 1) =
        max (idxMax y b (b + m + 1)) (y (b + m + 1)) := by
      have hb : b + (m + 1) + 1 - b - 1 = (b + m + 1 - b - 1) + 1 := by omega
      rw [idxMax, hb, idxMaxAux, idxMax]
      congr 2
      omega
    have h2 : idxMax y a (b + (m + 1) + 1) =
        max (idxMax y a (b + m + 1)) (y (b + m + 1)) := by
      have hb : b + (m + 1) + 1 - a - 1 = (b + m + 1 - a - 1) + 1 := by omega
      rw [idxMax, hb, idxMaxAux, idxMax]
      congr 2
      omega
    rw [h1, h2, ← ih2, max_assoc]

theorem strictChain_lt (s : ℕ → ℕ) :
    ∀ m, 0 < m → (∀ c, c < m → s c < s (c + 1)) → s 0 < s m := by
  intro m
  induction m with
  | zero => omega
  | succ k ih =>
    intro _ hchain
    rcases Nat.eq_zero_or_pos k with h | h
    · subst h; exact hchain 0 (by omega)
    · exact lt_trans (ih h fun c hc => hchain c (by omega)) (hchain k (by omega))

/-- Folding per-column minima over a strictly increasing chain of column
boundaries gives the minimum over the whole index range. -/
theorem idxMin_chain (y : ℕ → ℚ) (s : ℕ → ℕ) :
    ∀ n, (∀ c, c ≤ n → s c < s (c + 1)) →
      idxMinAux (fun c => idxMin y (s c) (s (c + 1))) 0 n = idxMin y (s 0) (s (n + 1)) := by
  intro n
  induction n with
  | zero => intro _; simp [idxMinAux]
  | succ m ih =>
    intro hchain
    have h0 : s 0 < s (m + 1) :=
      strictChain_lt s (m + 1) (by omega) fun c hc => hchain c (by omega)
    rw [idxMinAux, ih (fun c hc => hchain c (by omega))]
    simpa using idxMin_union y (s 0) (s (m + 1)) (s (m + 2)) h0 (hchain (m + 1) le_rfl)

theorem idxMax_chain (y : ℕ → ℚ) (s : ℕ → ℕ) :
    ∀ n, (∀ c, c ≤ n → s c < s (c + 1)) →
      idxMaxAux (fun c => idxMax y (s c) (s (c + 1))) 0 n = idxMax y (s 0) (s (n + 1)) := by
  intro n
  induction n with
  | zero => intro _; simp [idxMaxAux]
  | succ m ih =>
    intro hchain
    have h0 : s 0 < s (m + 1) :=
      strictChain_lt s (m + 1) (by omega) fun c hc => hchain c (by omega)
    rw [idxMaxAux, ih (fun c hc => hchain c (by omega))]
    simpa using idxMax_union y (s 0) (s (m + 1)) (s (m + 2)) h0 (hchain (m + 1) le_rfl)

theorem foldl_preserve {α β : Type} (P : α → Prop) (step : α → β → α)
    (hstep : ∀ acc x, P acc → P (step acc x)) :
    ∀ (l : List β) (init : α), P init → P (l.foldl step init) := by
  intro l
  induction l with
  | nil => intro init h; simpa
  | cons x xs ih => intro init h; exact ih _ (hstep _ _ h)

theorem minMaxStep_preserve (acc : ℚ × ℚ) (y : ℚ) (h : acc.1 ≤ acc.2) :
    (minMaxStep acc y).1 ≤ (minMaxStep acc y).2 :=
  le_trans (min_le_right _ _) (le_max_right acc.2 y)

theorem aggMinMax_fst_le_snd (dataY : List ℚ) (startIdx endIdx : ℕ) :
    (aggMinMax dataY startIdx endIdx).1 ≤ (aggMinMax dataY startIdx endIdx).2 := by
  refine foldl_preserve (fun acc : ℚ × ℚ => acc.1 ≤ acc.2) _ ?_ _ _ le_rfl
  intro acc x h
  exact minMaxStep_preserve acc _ h

theorem stridedMinMax_fst_le_snd (dataY : List ℚ) (startIdx endIdx maxSamples : ℕ) :
    (stridedMinMax dataY startIdx endIdx maxSamples).1 ≤
      (stridedMinMax dataY startIdx endIdx maxSamples).2 := by
  unfold stridedMinMax
  apply minMaxStep_preserve
  refine foldl_preserve (fun acc : ℚ × ℚ => acc.1 ≤ acc.2) _ ?_ _ _ le_rfl
  intro acc x h
  dsimp only
  split
  · exact minMaxStep_preserve acc _ h
  · exact h

/-- Claim C6: every aggregated column record marked valid satisfies
min ≤ max — for the line kernel `minScreenY ≤ maxScreenY` after the
screen-space flip, for the box kernel the emitted `minY ≤ maxY`. -/
theorem valid_column_min_le_max
    (width maxSamples seriesIndex seriesCount : ℕ)
    (vminx vmaxx vminy vmaxy : ℚ) (dataX dataY : List ℚ) (outputIdx : ℕ) :
    (∀ d : LineData,
        lineKernelColumn width vminx vmaxx vminy vmaxy maxSamples dataX dataY
          outputIdx = some d →
        d.valid = 1 → d.minScreenY ≤ d.maxScreenY) ∧
    (∀ b : BarData,
        boxKernelColumn width vminx vmaxx vminy vmaxy maxSamples seriesIndex
          seriesCount dataX dataY outputIdx = some b →
        0 < b.barWidth → b.minY ≤ b.maxY) := by
  constructor
  · intro d heq hvalid
    simp only [lineKernelColumn] at heq
    split at heq
    · split at heq
      · cases heq; simp [invalidLine]
      · cases heq
    · split at heq
      · cases heq; simp [invalidLine]
      · rename_i hguard
        have hry : (0 : ℚ) < vmaxy - vminy := by
          push_neg at hguard
          linarith [hguard.2]
        split at heq
        · -- sparse single-sample branch: min = max
          repeat split at heq
          all_goals cases heq
          all_goals simp [invalidLine, lineSparseRecord]
        · -- aggregate branch
          cases heq
          have hle : ∀ mm : ℚ × ℚ, mm.1 ≤ mm.2 →
              1 - (mm.2 - vminy) / (vmaxy - vminy) ≤
                1 - (mm.1 - vminy) / (vmaxy - vminy) := by
            intro mm hmm
            have := (div_le_div_right hry).mpr (sub_le_sub_right hmm vminy)
            linarith
          dsimp only [lineAggRecord]
          split
          · exact hle _ (stridedMinMax_fst_le_snd _ _ _ _)
          · exact hle _ (aggMinMax_fst_le_snd _ _ _)
  · intro b heq hbw
    simp only [boxKernelColumn] at heq
    split at heq
    · split at heq
      · cases heq; simp [invalidBar]
      · cases heq
    · split at heq
      · cases heq; simp [invalidBar]
      · split at heq
        · -- sparse nearest-bar branch: min = max
          repeat split at heq
          all_goals cases heq
          all_goals simp [invalidBar]
        · -- aggregate branch
          cases heq
          dsimp only [boxAggRecord]
          split
          · exact stridedMinMax_fst_le_snd _ _ _ _
          · exact aggMinMax_fst_le_snd _ _ _

/-- Witness for C6: concrete valid line and box records. -/
theorem valid_column_min_le_max_witness :
    (lineKernelColumn 2 0 1 0 10 0 [1/10, 6/10, 9/10] [5, 2, 7] 1 =
        some ⟨3/4, 3/10, 4/5, 1⟩ ∧ ((3 : ℚ)/10 ≤ 4/5)) ∧
    (boxKernelColumn 2 0 1 0 10 0 0 1 [1/10, 6/10, 9/10] [5, 2, 7] 1 =
        some ⟨3/5, 2, 7, 1/2⟩ ∧ ((2 : ℚ) ≤ 7)) :=
  ⟨⟨by decide,
    (valid_column_min_le_max 2 0 0 1 0 1 0 10 [1/10, 6/10, 9/10] [5, 2, 7] 1).1
      ⟨3/4, 3/10, 4/5, 1⟩ (by decide) (by decide)⟩,
   ⟨by decide,
    (valid_column_min_le_max 2 0 0 1 0 1 0 10 [1/10, 6/10, 9/10] [5, 2, 7] 1).2
      ⟨3/5, 2, 7, 1/2⟩ (by decide) (by decide)⟩⟩

/-- Claim C1 counterexample: viewport `[0,1)×[0,10]`, one output column,
`maxSamplesPerPixel = 2`, samples `(0.1, 0), (0.2, 5), (0.3, 1)`.  The
column's interval holds 3 samples, exceeding the cap, so the kernel
stride-samples indices 0 and 2 plus the last sample — the interior maximum
`5` is lost: the aggregated maximum over all valid columns is `1` while the
true maximum of the viewport-restricted samples is `5`. -/
theorem lineKernel_extrema_counterexample :
    listMax ((validLineColumns
        (lineColumns 1 0 1 0 10 2 [1/10, 2/10, 3/10] [0, 5, 1])).map
      (recordDataMaxY 0 10)) = some 1 ∧
    listMax (viewportYs [1/10, 2/10, 3/10] [0, 5, 1] 0 1) = some 5 ∧
    (1 : ℚ) ≠ 5 := by
  refine ⟨by decide, by decide, by decide⟩

theorem colEnd_eq_colStart_succ (dataX : List ℚ) (vminx vmaxx : ℚ) (width c : ℕ) :
    colEnd dataX vminx vmaxx width c = colStart dataX vminx vmaxx width (c + 1) :=
  min_eq_left (lowerBound_le dataX _ dataX.length)

theorem aggMinMax_eq_idx (dataY : List ℚ) (s : ℕ) :
    ∀ n, aggMinMax dataY s (s + n + 1) =
      (idxMinAux (key dataY) s n, idxMaxAux (key dataY) s n) := by
  intro n
  induction n with
  | zero =>
    have h : s + 0 + 1 - (s + 1) = 0 := by omega
    simp [aggMinMax, h, idxMinAux, idxMaxAux]
  | succ m ih =>
    have h1 : s + (m + 1) + 1 - (s + 1) = m + 1 := by omega
    have h2 : s + m + 1 - (s + 1) = m := by omega
    rw [aggMinMax, h1, List.range_succ, List.foldl_append, List.foldl_cons,
      List.foldl_nil]
    rw [aggMinMax, h2] at ih
    rw [ih]
    have h3 : s + 1 + m = s + m + 1 := by omega
    simp [minMaxStep, idxMinAux, idxMaxAux, h3]

theorem aggMinMax_eq_idxMin (dataY : List ℚ) (s e : ℕ) (h : s < e) :
    aggMinMax dataY s e = (idxMin (key dataY) s e, idxMax (key dataY) s e) := by
  obtain ⟨n, rfl⟩ : ∃ n, e = s + n + 1 := ⟨e - s - 1, by omega⟩
  rw [aggMinMax_eq_idx, idxMin, idxMax]
  have : s + n + 1 - s - 1 = n := by omega
  rw [this]

theorem listMin_append_singleton (l : List ℚ) (x : ℚ) :
    listMin (l ++ [x]) = some ((listMin l).elim x (fun m => min m x)) := by
  cases l with
  | nil => simp [listMin]
  | cons y ys => simp [listMin, List.foldl_append]

theorem listMax_append_singleton (l : List ℚ) (x : ℚ) :
    listMax (l ++ [x]) = some ((listMax l).elim x (fun m => max m x)) := by
  cases l with
  | nil => simp [listMax]
  | cons y ys => simp [listMax, List.foldl_append]

theorem listMin_range_map (f : ℕ → ℚ) :
    ∀ n, listMin ((List.range (n + 1)).map f) = some (idxMinAux f 0 n) := by
  intro n
  induction n with
  | zero =>
    rw [show List.range 1 = [0] from rfl]
    simp [listMin, idxMinAux]
  | succ m ih =>
    rw [List.range_succ, List.map_append, List.map_singleton,
      listMin_append_singleton, ih]
    have h : 0 + m + 1 = m + 1 := by omega
    simp [idxMinAux, h]

theorem listMax_range_map (f : ℕ → ℚ) :
    ∀ n, listMax ((List.range (n + 1)).map f) = some (idxMaxAux f 0 n) := by
  intro n
  induction n with
  | zero =>
    rw [show List.range 1 = [0] from rfl]
    simp [listMax, idxMaxAux]
  | succ m ih =>
    rw [List.range_succ, List.map_append, List.map_singleton,
      listMax_append_singleton, ih]
    have h : 0 + m + 1 = m + 1 := by omega
    simp [idxMaxAux, h]

theorem idxMinAux_congr (f g : ℕ → ℚ) (a : ℕ) :
    ∀ n, (∀ k, a ≤ k → k ≤ a + n → f k = g k) →
      idxMinAux f a n = idxMinAux g a n := by
  intro n
  induction n with
  | zero => intro h; simpa [idxMinAux] using h a le_rfl (by omega)
  | succ m ih =>
    intro h
    rw [idxMinAux, idxMinAux, ih (fun k h1 h2 => h k h1 (by omega)),
      h (a + m + 1) (by omega) (by omega)]

theorem idxMaxAux_congr (f g : ℕ → ℚ) (a : ℕ) :
    ∀ n, (∀ k, a ≤ k → k ≤ a + n → f k = g k) →
      idxMaxAux f a n = idxMaxAux g a n := by
  intro n
  induction n with
  | zero => intro h; simpa [idxMaxAux] using h a le_rfl (by omega)
  | succ m ih =>
    intro h
    rw [idxMaxAux, idxMaxAux, ih (fun k h1 h2 => h k h1 (by omega)),
      h (a + m + 1) (by omega) (by omega)]

theorem filterMap_eq_map {α β : Type} (l : List α) (f : α → Option β) (g : α → β)
    (h : ∀ a ∈ l, f a = some (g a)) : l.filterMap f = l.map g := by
  induction l with
  | nil => rfl
  | cons x xs ih =>
    rw [List.filterMap_cons, h x (List.mem_cons_self _ _), List.map_cons,
      ih (fun a ha => h a (List.mem_cons_of_mem _ ha))]

theorem pixelBoundX_zero (vminx vmaxx : ℚ) (width : ℕ) :
    pixelBoundX vminx vmaxx width 0 = vminx := by
  simp [pixelBoundX]

theorem pixelBoundX_width (vminx vmaxx : ℚ) (width : ℕ) (hw : 0 < width) :
    pixelBoundX vminx vmaxx width width = vmaxx := by
  have : ((width : ℚ)) ≠ 0 := by positivity
  field_simp [pixelBoundX]

theorem mem_viewportYs (dataX dataY : List ℚ) (vminx vmaxx : ℚ)
    (hlen : dataX.length = dataY.length) (q : ℚ) :
    q ∈ viewportYs dataX dataY vminx vmaxx ↔
      ∃ i, i < dataX.length ∧ vminx ≤ key dataX i ∧ key dataX i < vmaxx ∧
        key dataY i = q := by
  have hlz : (dataX.zip dataY).length = dataX.length := by
    rw [List.length_zip]; omega
  unfold viewportYs
  simp only [List.mem_map, List.mem_filter, decide_eq_true_eq]
  constructor
  · rintro ⟨⟨x, y⟩, ⟨hmem, hcond⟩, rfl⟩
    rcases List.mem_iff_getElem.1 hmem with ⟨i, hi, hget⟩
    have hix : i < dataX.length := by omega
    have hiy : i < dataY.length := by omega
    rw [List.getElem_zip] at hget
    injection hget with hgx hgy
    have hx : key dataX i = x := by
      rw [key, List.getD_eq_getElem dataX 0 hix]; exact hgx
    have hy : key dataY i = y := by
      rw [key, List.getD_eq_getElem dataY 0 hiy]; exact hgy
    exact ⟨i, hix, by rw [hx]; exact hcond.1, by rw [hx]; exact hcond.2, hy⟩
  · rintro ⟨i, hix, h1, h2, rfl⟩
    have hiy : i < dataY.length := by omega
    have hiz : i < (dataX.zip dataY).length := by omega
    refine ⟨(key dataX i, key dataY i), ⟨?_, h1, h2⟩, rfl⟩
    refine List.mem_iff_getElem.2 ⟨i, hiz, ?_⟩
    rw [List.getElem_zip, key, key, List.getD_eq_getElem dataX 0 hix,
      List.getD_eq_getElem dataY 0 hiy]

/-- Indices between the two viewport lower bounds are exactly the samples
inside the viewport window. -/
theorem window_index_in_view (dataX : List ℚ) (vminx vmaxx : ℚ)
    (hs : SortedKeys dataX dataX.length) (j : ℕ)
    (hA : lowerBound dataX vminx dataX.length ≤ j)
    (hB : j < lowerBound dataX vmaxx dataX.length) :
    vminx ≤ key dataX j ∧ key dataX j < vmaxx := by
  have hj : j < dataX.length :=
    lt_of_lt_of_le hB (lowerBound_le dataX vmaxx dataX.length)
  exact ⟨lowerBound_le_val dataX vminx dataX.length hs j hA hj,
    lowerBound_lt_val dataX vmaxx dataX.length hs j hB⟩

theorem in_view_window_index (dataX : List ℚ) (vminx vmaxx : ℚ)
    (hs : SortedKeys dataX dataX.length) (j : ℕ) (hj : j < dataX.length)
    (h1 : vminx ≤ key dataX j) (h2 : key dataX j < vmaxx) :
    lowerBound dataX vminx dataX.length ≤ j ∧
      j < lowerBound dataX vmaxx dataX.length := by
  constructor
  · by_contra hcon
    push_neg at hcon
    exact absurd (lowerBound_lt_val dataX vminx dataX.length hs j hcon)
      (not_lt.2 h1)
  · by_contra hcon
    push_neg at hcon
    exact absurd (lowerBound_le_val dataX vmaxx dataX.length hs j hcon hj)
      (not_le.2 h2)

theorem range_map_agg_min_eq (dataY : List ℚ) (s : ℕ → ℕ) (n : ℕ)
    (hchain : ∀ c, c ≤ n → s c < s (c + 1)) :
    listMin ((List.range (n + 1)).map
        (fun c => (aggMinMax dataY (s c) (s (c + 1))).1)) =
      some (idxMin (key dataY) (s 0) (s (n + 1))) := by
  rw [listMin_range_map]
  congr 1
  rw [idxMinAux_congr _ (fun c => idxMin (key dataY) (s c) (s (c + 1))) 0 n
    (fun k hk1 hk2 => by
      rw [aggMinMax_eq_idxMin dataY _ _ (hchain k (by omega))])]
  exact idxMin_chain (key dataY) s n hchain

theorem range_map_agg_max_eq (dataY : List ℚ) (s : ℕ → ℕ) (n : ℕ)
    (hchain : ∀ c, c ≤ n → s c < s (c + 1)) :
    listMax ((List.range (n + 1)).map
        (fun c => (aggMinMax dataY (s c) (s (c + 1))).2)) =
      some (idxMax (key dataY) (s 0) (s (n + 1))) := by
  rw [listMax_range_map]
  congr 1
  rw [idxMaxAux_congr _ (fun c => idxMax (key dataY) (s c) (s (c + 1))) 0 n
    (fun k hk1 hk2 => by
      rw [aggMinMax_eq_idxMin dataY _ _ (hchain k (by omega))])]
  exact idxMax_chain (key dataY) s n hchain

/-- Core of claim C1: when every column interval is nonempty, folding the
plain per-column min/max over all columns recovers exactly the min/max of
the samples inside the viewport window. -/
theorem columns_agg_extrema (dataX dataY : List ℚ) (vminx vmaxx : ℚ) (width : ℕ)
    (hw : 0 < width)
    (hlen : dataX.length = dataY.length)
    (hs : SortedKeys dataX dataX.length)
    (hne : ∀ c, c < width →
      colStart dataX vminx vmaxx width c < colEnd dataX vminx vmaxx width c) :
    listMin ((List.range width).map
        (fun c => (aggMinMax dataY (colStart dataX vminx vmaxx width c)
          (colEnd dataX vminx vmaxx width c)).1)) =
      listMin (viewportYs dataX dataY vminx vmaxx) ∧
    listMax ((List.range width).map
        (fun c => (aggMinMax dataY (colStart dataX vminx vmaxx width c)
          (colEnd dataX vminx vmaxx width c)).2)) =
      listMax (viewportYs dataX dataY vminx vmaxx) := by
  simp only [colEnd_eq_colStart_succ] at hne ⊢
  obtain ⟨n, rfl⟩ : ∃ n, width = n + 1 := ⟨width - 1, by omega⟩
  have hchain : ∀ c, c ≤ n → colStart dataX vminx vmaxx (n + 1) c <
      colStart dataX vminx vmaxx (n + 1) (c + 1) :=
    fun c hc => hne c (by omega)
  have hs0 : colStart dataX vminx vmaxx (n + 1) 0 =
      lowerBound dataX vminx dataX.length := by
    simp only [colStart, pixelBoundX_zero]
  have hswidth : colStart dataX vminx vmaxx (n + 1) (n + 1) =
      lowerBound dataX vmaxx dataX.length := by
    simp only [colStart]
    rw [pixelBoundX_width vminx vmaxx (n + 1) (by omega)]
  have hAB : lowerBound dataX vminx dataX.length <
      lowerBound dataX vmaxx dataX.length := by
    rw [← hs0, ← hswidth]
    exact strictChain_lt (fun c => colStart dataX vminx vmaxx (n + 1) c) (n + 1)
      (by omega) (fun c hc => hne c hc)
  have hBcount : lowerBound dataX vmaxx dataX.length ≤ dataX.length :=
    lowerBound_le dataX vmaxx dataX.length
  have hview_min : listMin (viewportYs dataX dataY vminx vmaxx) =
      some (idxMin (key dataY) (lowerBound dataX vminx dataX.length)
        (lowerBound dataX vmaxx dataX.length)) := by
    apply listMin_eq_some
    · rcases idxMin_attained (key dataY) _ _ hAB with ⟨j, hj1, hj2, heq⟩
      have hj : j < dataX.length := by omega
      have hv := window_index_in_view dataX vminx vmaxx hs j hj1 hj2
      exact (mem_viewportYs dataX dataY vminx vmaxx hlen _).2
        ⟨j, hj, hv.1, hv.2, heq.symm⟩
    · intro z hz
      rcases (mem_viewportYs dataX dataY vminx vmaxx hlen z).1 hz with
        ⟨i, hi, h1, h2, rfl⟩
      have hw2 := in_view_window_index dataX vminx vmaxx hs i hi h1 h2
      exact idxMin_le (key dataY) _ _ i hw2.1 hw2.2
  have hview_max : listMax (viewportYs dataX dataY vminx vmaxx) =
      some (idxMax (key dataY) (lowerBound dataX vminx dataX.length)
        (lowerBound dataX vmaxx dataX.length)) := by
    apply listMax_eq_some
    · rcases idxMax_attained (key dataY) _ _ hAB with ⟨j, hj1, hj2, heq⟩
      have hj : j < dataX.length := by omega
      have hv := window_index_in_view dataX vminx vmaxx hs j hj1 hj2
      exact (mem_viewportYs dataX dataY vminx vmaxx hlen _).2
        ⟨j, hj, hv.1, hv.2, heq.symm⟩
    · intro z hz
      rcases (mem_viewportYs dataX dataY vminx vmaxx hlen z).1 hz with
        ⟨i, hi, h1, h2, rfl⟩
      have hw2 := in_view_window_index dataX vminx vmaxx hs i hi h1 h2
      exact le_idxMax (key dataY) _ _ i hw2.1 hw2.2
  constructor
  · rw [range_map_agg_min_eq dataY
      (fun c => colStart dataX vminx vmaxx (n + 1) c) n hchain, hview_min,
      hs0, hswidth]
  · rw [range_map_agg_max_eq dataY
      (fun c => colStart dataX vminx vmaxx (n + 1) c) n hchain, hview_max,
      hs0, hswidth]

theorem lineKernelColumn_agg_eq (width maxSamples : ℕ)
    (vminx vmaxx vminy vmaxy : ℚ) (dataX dataY : List ℚ) (c : ℕ)
    (hc : c < width) (hcount : dataX.length ≠ 0)
    (hrx : 1 / 10000 ≤ vmaxx - vminx) (hry : 1 / 10000 ≤ vmaxy - vminy)
    (hne : colStart dataX vminx vmaxx width c < colEnd dataX vminx vmaxx width c) :
    lineKernelColumn width vminx vmaxx vminy vmaxy maxSamples dataX dataY c =
      some (lineAggRecord width vminx vmaxx vminy vmaxy maxSamples dataX dataY c) := by
  simp only [lineKernelColumn]
  rw [if_neg (by omega : ¬(width ≤ c ∨ dataX.length = 0))]
  rw [if_neg (show ¬(vmaxx - vminx < 1 / 10000 ∨ vmaxy - vminy < 1 / 10000) by
    push_neg
    exact ⟨hrx, hry⟩)]
  rw [if_neg (by omega : ¬(colEnd dataX vminx vmaxx width c ≤
    colStart dataX vminx vmaxx width c))]

theorem boxKernelColumn_agg_eq (width maxSamples seriesIndex seriesCount : ℕ)
    (vminx vmaxx vminy vmaxy : ℚ) (dataX dataY : List ℚ) (c : ℕ)
    (hc : c < width) (hcount : dataX.length ≠ 0)
    (hrx : 1 / 10000 ≤ vmaxx - vminx) (hry : 1 / 10000 ≤ vmaxy - vminy)
    (hne : colStart dataX vminx vmaxx width c < colEnd dataX vminx vmaxx width c) :
    boxKernelColumn width vminx vmaxx vminy vmaxy maxSamples seriesIndex
        seriesCount dataX dataY c =
      some (boxAggRecord width vminx vmaxx maxSamples seriesIndex seriesCount
        dataX dataY c) := by
  simp only [boxKernelColumn]
  rw [if_neg (by omega : ¬(width ≤ c ∨ dataX.length = 0))]
  rw [if_neg (show ¬(vmaxx - vminx < 1 / 10000 ∨ vmaxy - vminy < 1 / 10000) by
    push_neg
    exact ⟨hrx, hry⟩)]
  rw [if_neg (by omega : ¬(colEnd dataX vminx vmaxx width c ≤
    colStart dataX vminx vmaxx width c))]

theorem lineAggRecord_fields (width maxSamples : ℕ)
    (vminx vmaxx vminy vmaxy : ℚ) (dataX dataY : List ℚ) (c : ℕ)
    (hry : 1 / 10000 ≤ vmaxy - vminy)
    (hnostride : ¬(1 < maxSamples ∧ maxSamples <
      colEnd dataX vminx vmaxx width c - colStart dataX vminx vmaxx width c)) :
    recordDataMinY vminy vmaxy
        (lineAggRecord width vminx vmaxx vminy vmaxy maxSamples dataX dataY c) =
      (aggMinMax dataY (colStart dataX vminx vmaxx width c)
        (colEnd dataX vminx vmaxx width c)).1 ∧
    recordDataMaxY vminy vmaxy
        (lineAggRecord width vminx vmaxx vminy vmaxy maxSamples dataX dataY c) =
      (aggMinMax dataY (colStart dataX vminx vmaxx width c)
        (colEnd dataX vminx vmaxx width c)).2 ∧
    (lineAggRecord width vminx vmaxx vminy vmaxy maxSamples dataX dataY c).valid = 1 := by
  have hry0 : vmaxy - vminy ≠ 0 := by
    intro h
    rw [h] at hry
    linarith
  dsimp only [lineAggRecord, recordDataMinY, recordDataMaxY]
  rw [if_neg hnostride]
  refine ⟨?_, ?_, rfl⟩
  · field_simp
  · field_simp

theorem boxAggRecord_fields (width maxSamples seriesIndex seriesCount : ℕ)
    (vminx vmaxx : ℚ) (dataX dataY : List ℚ) (c : ℕ)
    (hw : 0 < width)
    (hnostride : ¬(0 < maxSamples ∧ maxSamples <
      colEnd dataX vminx vmaxx width c - colStart dataX vminx vmaxx width c)) :
    (boxAggRecord width vminx vmaxx maxSamples seriesIndex seriesCount
        dataX dataY c).minY =
      (aggMinMax dataY (colStart dataX vminx vmaxx width c)
        (colEnd dataX vminx vmaxx width c)).1 ∧
    (boxAggRecord width vminx vmaxx maxSamples seriesIndex seriesCount
        dataX dataY c).maxY =
      (aggMinMax dataY (colStart dataX vminx vmaxx width c)
        (colEnd dataX vminx vmaxx width c)).2 ∧
    0 < (boxAggRecord width vminx vmaxx maxSamples seriesIndex seriesCount
        dataX dataY c).barWidth := by
  dsimp only [boxAggRecord]
  rw [if_neg hnostride]
  refine ⟨rfl, rfl, ?_⟩
  have hwq : (0 : ℚ) < (width : ℚ) := by exact_mod_cast hw
  exact lt_of_lt_of_le (one_div_pos.mpr hwq) (le_max_right _ _)

/-- Claim C1 (amended): provided every pixel column's sample interval is
nonempty and no interval's sample count exceeds the cap (so neither the
sparse nearest-sample fallback nor stride-sampling occurs), the min and max
over all valid aggregated columns — data-space values recovered from the
line kernel's screen-space records, and the box kernel's emitted
`minY`/`maxY` — equal the true min and max of the series samples restricted
to the viewport window. -/
theorem decimation_preserves_extrema_amended
    (width maxSamples seriesIndex seriesCount : ℕ)
    (vminx vmaxx vminy vmaxy : ℚ) (dataX dataY : List ℚ)
    (hw : 0 < width)
    (hlen : dataX.length = dataY.length)
    (hs : SortedKeys dataX dataX.length)
    (hrx : 1 / 10000 ≤ vmaxx - vminx) (hry : 1 / 10000 ≤ vmaxy - vminy)
    (hne : ∀ c, c < width →
      colStart dataX vminx vmaxx width c < colEnd dataX vminx vmaxx width c)
    (hcap : ∀ c, c < width → maxSamples = 0 ∨
      colEnd dataX vminx vmaxx width c - colStart dataX vminx vmaxx width c ≤
        maxSamples) :
    (listMin ((validLineColumns (lineColumns width vminx vmaxx vminy vmaxy
          maxSamples dataX dataY)).map (recordDataMinY vminy vmaxy)) =
        listMin (viewportYs dataX dataY vminx vmaxx) ∧
      listMax ((validLineColumns (lineColumns width vminx vmaxx vminy vmaxy
          maxSamples dataX dataY)).map (recordDataMaxY vminy vmaxy)) =
        listMax (viewportYs dataX dataY vminx vmaxx)) ∧
    (listMin ((validBoxColumns (boxColumns width vminx vmaxx vminy vmaxy
          maxSamples seriesIndex seriesCount dataX dataY)).map BarData.minY) =
        listMin (viewportYs dataX dataY vminx vmaxx) ∧
      listMax ((validBoxColumns (boxColumns width vminx vmaxx vminy vmaxy
          maxSamples seriesIndex seriesCount dataX dataY)).map BarData.maxY) =
        listMax (viewportYs dataX dataY vminx vmaxx)) := by
  have hcount : dataX.length ≠ 0 := by
    have h0 := hne 0 hw
    have hce : colEnd dataX vminx vmaxx width 0 ≤ dataX.length :=
      min_le_right _ _
    omega
  have hnsL : ∀ c, c < width → ¬(1 < maxSamples ∧ maxSamples <
      colEnd dataX vminx vmaxx width c - colStart dataX vminx vmaxx width c) := by
    intro c hc
    rcases hcap c hc with h | h <;> omega
  have hnsB : ∀ c, c < width → ¬(0 < maxSamples ∧ maxSamples <
      colEnd dataX vminx vmaxx width c - colStart dataX vminx vmaxx width c) := by
    intro c hc
    rcases hcap c hc with h | h <;> omega
  have hcore := columns_agg_extrema dataX dataY vminx vmaxx width hw hlen hs hne
  constructor
  · -- line kernel
    have hmap : lineColumns width vminx vmaxx vminy vmaxy maxSamples dataX dataY =
        (List.range width).map
          (fun c => lineAggRecord width vminx vmaxx vminy vmaxy maxSamples
            dataX dataY c) := by
      apply filterMap_eq_map
      intro c hcmem
      exact lineKernelColumn_agg_eq width maxSamples vminx vmaxx vminy vmaxy
        dataX dataY c (List.mem_range.1 hcmem) hcount hrx hry
        (hne c (List.mem_range.1 hcmem))
    have hvalid : validLineColumns ((List.range width).map
        (fun c => lineAggRecord width vminx vmaxx vminy vmaxy maxSamples
          dataX dataY c)) =
        (List.range width).map
          (fun c => lineAggRecord width vminx vmaxx vminy vmaxy maxSamples
            dataX dataY c) := by
      apply List.filter_eq_self.2
      intro d hd
      rcases List.mem_map.1 hd with ⟨c, hcmem, rfl⟩
      exact decide_eq_true
        (lineAggRecord_fields width maxSamples vminx vmaxx vminy vmaxy dataX
          dataY c hry (hnsL c (List.mem_range.1 hcmem))).2.2
    rw [lineColumns] at hmap
    rw [validLineColumns, lineColumns, hmap, ← validLineColumns, hvalid,
      List.map_map, List.map_map]
    simp only [Function.comp_def]
    constructor
    · rw [List.map_congr_left (fun c hcmem =>
        (lineAggRecord_fields width maxSamples vminx vmaxx vminy vmaxy dataX
          dataY c hry (hnsL c (List.mem_range.1 hcmem))).1)]
      exact hcore.1
    · rw [List.map_congr_left (fun c hcmem =>
        (lineAggRecord_fields width maxSamples vminx vmaxx vminy vmaxy dataX
          dataY c hry (hnsL c (List.mem_range.1 hcmem))).2.1)]
      exact hcore.2
  · -- box kernel
    have hmap : boxColumns width vminx vmaxx vminy vmaxy maxSamples seriesIndex
        seriesCount dataX dataY =
        (List.range width).map
          (fun c => boxAggRecord width vminx vmaxx maxSamples seriesIndex
            seriesCount dataX dataY c) := by
      apply filterMap_eq_map
      intro c hcmem
      exact boxKernelColumn_agg_eq width maxSamples seriesIndex seriesCount
        vminx vmaxx vminy vmaxy dataX dataY c (List.mem_range.1 hcmem) hcount
        hrx hry (hne c (List.mem_range.1 hcmem))
    have hvalid : validBoxColumns ((List.range width).map
        (fun c => boxAggRecord width vminx vmaxx maxSamples seriesIndex
          seriesCount dataX dataY c)) =
        (List.range width).map
          (fun c => boxAggRecord width vminx vmaxx maxSamples seriesIndex
            seriesCount dataX dataY c) := by
      apply List.filter_eq_self.2
      intro d hd
      rcases List.mem_map.1 hd with ⟨c, hcmem, rfl⟩
      exact decide_eq_true
        (boxAggRecord_fields width maxSamples seriesIndex seriesCount vminx
          vmaxx dataX dataY c hw (hnsB c (List.mem_range.1 hcmem))).2.2
    rw [hmap, hvalid, List.map_map, List.map_map]
    simp only [Function.comp_def]
    constructor
    · rw [List.map_congr_left (fun c hcmem =>
        (boxAggRecord_fields width maxSamples seriesIndex seriesCount vminx
          vmaxx dataX dataY c hw (hnsB c (List.mem_range.1 hcmem))).1)]
      exact hcore.1
    · rw [List.map_congr_left (fun c hcmem =>
        (boxAggRecord_fields width maxSamples seriesIndex seriesCount vminx
          vmaxx dataX dataY c hw (hnsB c (List.mem_range.1 hcmem))).2.1)]
      exact hcore.2

/-- Witness for the amended C1 on a concrete two-column viewport. -/
theorem decimation_preserves_extrema_amended_witness :
    (SortedKeys [1/10, 6/10, 9/10] 3 ∧
      (∀ c, c < 2 → colStart [1/10, 6/10, 9/10] 0 1 2 c <
        colEnd [1/10, 6/10, 9/10] 0 1 2 c)) ∧
    listMax ((validLineColumns (lineColumns 2 0 1 0 10 0
        [1/10, 6/10, 9/10] [5, 2, 7])).map (recordDataMaxY 0 10)) =
      listMax (viewportYs [1/10, 6/10, 9/10] [5, 2, 7] 0 1) :=
  ⟨⟨by decide, by decide⟩,
    ((decimation_preserves_extrema_amended 2 0 0 1 0 1 0 10
      [1/10, 6/10, 9/10] [5, 2, 7] (by decide) rfl (by decide) (by decide)
      (by decide) (by decide) (by decide)).1).2⟩

theorem lookupChart_updateChart_self (reg : List (String × MChart)) (id : String)
    (f : MChart → MChart) :
    lookupChart (updateChart reg id f) id = (lookupChart reg id).map f := by
  induction reg with
  | nil => rfl
  | cons e rest ih =>
    by_cases h : e.1 = id
    · simp [updateChart, lookupChart, h]
    · simp only [updateChart, List.map_cons, if_neg h, lookupChart]
      exact ih

theorem lookupChart_updateChart_ne (reg : List (String × MChart))
    (id id' : String) (f : MChart → MChart) (h : id ≠ id') :
    lookupChart (updateChart reg id f) id' = lookupChart reg id' := by
  induction reg with
  | nil => rfl
  | cons e rest ih =>
    by_cases he : e.1 = id
    · have hne : e.1 ≠ id' := by rw [he]; exact h
      simp only [updateChart, List.map_cons, if_pos he, lookupChart, if_neg hne]
      exact ih
    · simp only [updateChart, List.map_cons, if_neg he, lookupChart]
      by_cases he2 : e.1 = id'
      · rw [if_pos he2, if_pos he2]
      · rw [if_neg he2, if_neg he2]
        exact ih

theorem lookupChart_map_keyed (reg : List (String × MChart))
    (g : MChart → MChart) (id : String) :
    lookupChart (reg.map (fun e => (e.1, g e.2))) id =
      (lookupChart reg id).map g := by
  induction reg with
  | nil => rfl
  | cons e rest ih =>
    by_cases h : e.1 = id
    · simp [lookupChart, h]
    · simp only [List.map_cons, lookupChart, if_neg h]
      exact ih

theorem lookupChart_foldl_update (f : MChart → MChart)
    (hidem : ∀ c, f (f c) = f c) (ids : List String) :
    ∀ reg id, lookupChart (ids.foldl (fun r i => updateChart r i f) reg) id =
      if id ∈ ids then (lookupChart reg id).map f else lookupChart reg id := by
  induction ids with
  | nil => intro reg id; simp
  | cons i rest ih =>
    intro reg id
    simp only [List.foldl_cons]
    rw [ih]
    by_cases hmem : id ∈ rest
    · rw [if_pos hmem, if_pos (List.mem_cons_of_mem i hmem)]
      by_cases hii : i = id
      · subst hii
        rw [lookupChart_updateChart_self]
        cases lookupChart reg i with
        | none => rfl
        | some c => simp [hidem]
      · rw [lookupChart_updateChart_ne reg i id f hii]
    · by_cases hii : id = i
      · subst hii
        rw [if_neg hmem, if_pos (List.mem_cons_self id rest),
          lookupChart_updateChart_self]
      · rw [if_neg hmem, if_neg (by simp [hii, hmem]),
          lookupChart_updateChart_ne reg i id f (fun h => hii h.symm)]

theorem lookupChart_mem (reg : List (String × MChart)) (id : String) (c : MChart)
    (h : lookupChart reg id = some c) : (id, c) ∈ reg := by
  induction reg with
  | nil => cases h
  | cons e rest ih =>
    by_cases he : e.1 = id
    · rw [lookupChart, if_pos he] at h
      cases h
      exact List.mem_cons.2 (Or.inl (by rw [← he]))
    · rw [lookupChart, if_neg he] at h
      exact List.mem_cons_of_mem _ (ih h)

theorem lookupChart_eq_of_mem (reg : List (String × MChart)) (id : String)
    (c : MChart) (hnd : (reg.map Prod.fst).Nodup) (hmem : (id, c) ∈ reg) :
    lookupChart reg id = some c := by
  induction reg with
  | nil => cases hmem
  | cons e rest ih =>
    rw [List.map_cons, List.nodup_cons] at hnd
    rcases List.mem_cons.1 hmem with h | h
    · subst h
      rw [lookupChart, if_pos rfl]
    · have hne : e.1 ≠ id := by
        intro he
        exact hnd.1 (by rw [he]; exact List.mem_map_of_mem Prod.fst h)
      rw [lookupChart, if_neg hne]
      exact ih hnd.2 h

theorem updateChart_keys (reg : List (String × MChart)) (id : String)
    (f : MChart → MChart) :
    (updateChart reg id f).map Prod.fst = reg.map Prod.fst := by
  induction reg with
  | nil => rfl
  | cons e rest ih =>
    by_cases h : e.1 = id
    · simp only [updateChart, List.map_cons, if_pos h]
      rw [← ih, updateChart]
    · simp only [updateChart, List.map_cons, if_neg h]
      rw [← ih, updateChart]

theorem lookupChart_removeChart (reg : List (String × MChart)) (id : String) :
    lookupChart (removeChart reg id) id = none := by
  induction reg with
  | nil => rfl
  | cons e rest ih =>
    by_cases h : e.1 = id
    · rw [removeChart, if_pos h]
      exact ih
    · rw [removeChart, if_neg h, lookupChart, if_neg h]
      exact ih

theorem getLast?_append_singleton {α : Type} (l : List α) (x : α) :
    (l ++ [x]).getLast? = some x := by
  rw [List.getLast?_concat]

theorem getLast?_append_pair {α : Type} (l : List α) (d e : α) :
    (l ++ [d, e]).getLast? = some e := by
  rw [show l ++ [d, e] = (l ++ [d]) ++ [e] by simp]
  exact getLast?_append_singleton _ _

theorem clampZoom_mem (z : ℚ) : 1 / 10 ≤ clampZoom z ∧ clampZoom z ≤ 1000000 := by
  unfold clampZoom
  refine ⟨le_max_left _ _, max_le (by norm_num) (min_le_left _ _)⟩

/-- Claim C4 counterexample: the `sync-view` command assigns the zoom pair
without clamping, so after processing it a chart's zoom lies outside the
clamp range [0.1, 1000000]. -/
theorem sync_view_zoom_unclamped_counterexample :
    (lookupChart (onSyncView sampleState 0 0 2000000 1).charts "a").map
        MChart.zoomX = some 2000000 ∧
    ¬((2000000 : ℚ) ≤ 1000000) :=
  ⟨rfl, by decide⟩

/-- Claim C4 (amended): the view-transform and batch-view-transform
handlers clamp the incoming zoom into [0.1, 1000000] for every chart they
touch; the sync-view handler, however, assigns the zoom pair unclamped, so
not every zoom-mutating command preserves the bounds. -/
theorem zoom_clamped_on_view_transform_amended :
    (∀ (st : WorkerState) (id : String) (panX panY zoomX zoomY : ℚ)
        (c : MChart),
      lookupChart (onViewTransform st id panX panY zoomX zoomY).charts id =
        some c → zoomInBounds c) ∧
    (∀ (st : WorkerState) (panX panY zoomX zoomY : ℚ) (ids : List String)
        (id : String) (c : MChart), id ∈ ids →
      lookupChart (onBatchViewTransform st panX panY zoomX zoomY ids).charts
        id = some c → zoomInBounds c) := by
  constructor
  · intro st id panX panY zoomX zoomY c h
    unfold onViewTransform at h
    rcases hl : lookupChart st.charts id with _ | c0 <;> rw [hl] at h
    · rw [hl] at h
      cases h
    · rw [lookupChart_updateChart_self, hl] at h
      cases Option.some.inj h
      exact ⟨(clampZoom_mem zoomX).1, (clampZoom_mem zoomX).2,
        (clampZoom_mem zoomY).1, (clampZoom_mem zoomY).2⟩
  · intro st panX panY zoomX zoomY ids id c hmem h
    simp only [onBatchViewTransform] at h
    rw [lookupChart_foldl_update
      (batchApplyView panX panY (clampZoom zoomX) (clampZoom zoomY))
      (fun c0 => rfl) ids st.charts id, if_pos hmem] at h
    rcases hl : lookupChart st.charts id with _ | c0 <;> rw [hl] at h
    · cases h
    · cases Option.some.inj h
      exact ⟨(clampZoom_mem zoomX).1, (clampZoom_mem zoomX).2,
        (clampZoom_mem zoomY).1, (clampZoom_mem zoomY).2⟩

/-- Witness for the amended C4. -/
theorem zoom_clamped_on_view_transform_amended_witness :
    ("a" ∈ ["a"]) ∧
    zoomInBounds
      (batchApplyView 1 2 (clampZoom 5000000) (clampZoom 7) sampleChart) :=
  ⟨by decide,
    (zoom_clamped_on_view_transform_amended).2 sampleState 1 2 5000000 7 ["a"]
      "a" _ (by decide) rfl⟩

/-- Claim C5: after one batch-view-transform, every targeted chart that
exists holds exactly the same pan pair and the same clamped zoom pair, all
targets are dirty, and a render is scheduled in the same pass. -/
theorem batch_view_transform_atomic (st : WorkerState)
    (panX panY zoomX zoomY : ℚ) (ids : List String) (id1 id2 : String)
    (c1 c2 : MChart) (h1m : id1 ∈ ids) (h2m : id2 ∈ ids)
    (h1 : lookupChart (onBatchViewTransform st panX panY zoomX zoomY ids).charts
      id1 = some c1)
    (h2 : lookupChart (onBatchViewTransform st panX panY zoomX zoomY ids).charts
      id2 = some c2) :
    c1.panX = panX ∧ c1.panY = panY ∧ c1.zoomX = clampZoom zoomX ∧
    c1.zoomY = clampZoom zoomY ∧ c1.dirty = true ∧ c2.dirty = true ∧
    c1.panX = c2.panX ∧ c1.panY = c2.panY ∧ c1.zoomX = c2.zoomX ∧
    c1.zoomY = c2.zoomY ∧
    (onBatchViewTransform st panX panY zoomX zoomY ids).renderScheduled =
      true := by
  simp only [onBatchViewTransform] at h1 h2 ⊢
  rw [lookupChart_foldl_update
    (batchApplyView panX panY (clampZoom zoomX) (clampZoom zoomY))
    (fun c0 => rfl) ids st.charts id1, if_pos h1m] at h1
  rw [lookupChart_foldl_update
    (batchApplyView panX panY (clampZoom zoomX) (clampZoom zoomY))
    (fun c0 => rfl) ids st.charts id2, if_pos h2m] at h2
  rcases hl1 : lookupChart st.charts id1 with _ | c01 <;> rw [hl1] at h1
  · cases h1
  rcases hl2 : lookupChart st.charts id2 with _ | c02 <;> rw [hl2] at h2
  · cases h2
  cases Option.some.inj h1
  cases Option.some.inj h2
  exact ⟨rfl, rfl, rfl, rfl, rfl, rfl, rfl, rfl, rfl, rfl, trivial⟩

/-- Witness for C5. -/
theorem batch_view_transform_atomic_witness :
    ("a" ∈ ["a"]) ∧
    lookupChart (onBatchViewTransform sampleState 1 2 3 4 ["a"]).charts "a" =
      some (batchApplyView 1 2 (clampZoom 3) (clampZoom 4) sampleChart) ∧
    (onBatchViewTransform sampleState 1 2 3 4 ["a"]).renderScheduled = true :=
  ⟨by decide, rfl,
    (batch_view_transform_atomic sampleState 1 2 3 4 ["a"] "a" "a" _ _
      (by decide) (by decide) rfl rfl).2.2.2.2.2.2.2.2.2.2⟩

/-- Claim C9: a resize to the chart's current dimensions mutates no GPU
resource — `resizeChart` returns before touching anything, so no handle is
destroyed or allocated and the off-screen target, its view, the
resource-binding sets and the per-series buffers are all unchanged (the
handler still sets the dirty flag). -/
theorem resize_same_dims_noop (st : WorkerState) (id : String) (c : MChart)
    (hc : lookupChart st.charts id = some c) (hw : 0 < c.width)
    (hh : 0 < c.height) :
    resizeChart c st.nextHandle c.width c.height = (c, st.nextHandle, []) ∧
    (onResize st id c.width c.height).nextHandle = st.nextHandle ∧
    (onResize st id c.width c.height).destroyed = st.destroyed ∧
    lookupChart (onResize st id c.width c.height).charts id =
      some { c with dirty := true } ∧
    (MChart.outputTexture { c with dirty := true } = c.outputTexture ∧
     MChart.outputTextureView { c with dirty := true } = c.outputTextureView ∧
     MChart.fxaaBindGroup { c with dirty := true } = c.fxaaBindGroup ∧
     MChart.uniformBuffer { c with dirty := true } = c.uniformBuffer ∧
     MChart.seriesStorageBuffer { c with dirty := true } =
       c.seriesStorageBuffer ∧
     MChart.series { c with dirty := true } = c.series) := by
  have hr : resizeChart c st.nextHandle c.width c.height =
      (c, st.nextHandle, []) := by
    unfold resizeChart
    rw [if_pos ⟨rfl, rfl⟩]
  have hbody : onResize st id c.width c.height =
      { st with
        charts := updateChart st.charts id (fun _ => { c with dirty := true })
        renderScheduled := st.renderScheduled || c.visible } := by
    simp only [onResize, hc]
    rw [if_pos ⟨hw, hh⟩, hr]
    simp
  refine ⟨hr, ?_, ?_, ?_, rfl, rfl, rfl, rfl, rfl, rfl⟩
  · rw [hbody]
  · rw [hbody]
  · rw [hbody]
    dsimp only
    rw [lookupChart_updateChart_self, hc]
    rfl

/-- Witness for C9. -/
theorem resize_same_dims_noop_witness :
    lookupChart sampleState.charts "a" = some sampleChart ∧
    (onResize sampleState "a" 800 400).nextHandle = sampleState.nextHandle ∧
    (onResize sampleState "a" 800 400).destroyed = sampleState.destroyed :=
  ⟨rfl,
    (resize_same_dims_noop sampleState "a" sampleChart rfl (by decide)
      (by decide)).2.1,
    (resize_same_dims_noop sampleState "a" sampleChart rfl (by decide)
      (by decide)).2.2.1⟩

/-- Claim C10: unregister-chart always emits chart-unregistered(id), even
when no chart with that id exists; when it exists, the chart is removed
from the registry and every owned GPU resource is destroyed before the
event is emitted (the emit is the final action of the handler's trace). -/
theorem unregister_chart_emits_and_destroys (st : WorkerState) (id : String) :
    (onUnregisterChart st id).2.getLast? =
      some (WAction.emitEvent (MEvent.chartUnregistered id)) ∧
    (lookupChart st.charts id = none →
      (onUnregisterChart st id).1 = st ∧
      (onUnregisterChart st id).2 =
        [WAction.emitEvent (MEvent.chartUnregistered id)]) ∧
    (∀ c, lookupChart st.charts id = some c →
      lookupChart (onUnregisterChart st id).1.charts id = none ∧
      (onUnregisterChart st id).1.destroyed =
        st.destroyed ++ chartDestroyHandles c ∧
      (onUnregisterChart st id).2 =
        WAction.unconfigure id ::
          ((chartDestroyHandles c).map WAction.destroyHandle ++
            [WAction.deleteRegistryEntry id,
             WAction.emitEvent (MEvent.chartUnregistered id)])) := by
  rcases hl : lookupChart st.charts id with _ | c
  · have he : onUnregisterChart st id =
        (st, [WAction.emitEvent (MEvent.chartUnregistered id)]) := by
      simp only [onUnregisterChart, hl]
    rw [he]
    refine ⟨rfl, fun _ => ⟨rfl, rfl⟩, fun c0 hc0 => ?_⟩
    cases hc0
  · have he : onUnregisterChart st id =
        ({ st with
            charts := removeChart st.charts id
            destroyed := st.destroyed ++ chartDestroyHandles c },
         (WAction.unconfigure id ::
           (chartDestroyHandles c).map WAction.destroyHandle) ++
           [WAction.deleteRegistryEntry id,
            WAction.emitEvent (MEvent.chartUnregistered id)]) := by
      simp only [onUnregisterChart, hl]
    rw [he]
    refine ⟨getLast?_append_pair _ _ _, fun hn => ?_, fun c0 hc0 => ?_⟩
    · cases hn
    · cases Option.some.inj hc0
      exact ⟨lookupChart_removeChart st.charts id, rfl, by simp⟩

/-- Witness for C10, covering both the present and the absent chart. -/
theorem unregister_chart_emits_and_destroys_witness :
    ((onUnregisterChart sampleState "a").2.getLast? =
      some (WAction.emitEvent (MEvent.chartUnregistered "a"))) ∧
    (lookupChart sampleState.charts "b" = none ∧
      (onUnregisterChart sampleState "b").2 =
        [WAction.emitEvent (MEvent.chartUnregistered "b")]) ∧
    (lookupChart sampleState.charts "a" = some sampleChart ∧
      lookupChart (onUnregisterChart sampleState "a").1.charts "a" = none) :=
  ⟨(unregister_chart_emits_and_destroys sampleState "a").1,
   ⟨rfl, ((unregister_chart_emits_and_destroys sampleState "b").2.1 rfl).2⟩,
   ⟨rfl, ((unregister_chart_emits_and_destroys sampleState "a").2.2
      sampleChart rfl).1⟩⟩

/-- Claim C8: an invisible chart is never rendered by a scheduled frame and
its dirty flag is left set; after set-visibility(true) arrives while the
dirty flag is still set, a render is scheduled and the next frame renders
the chart exactly once, then clears its dirty flag. -/
theorem invisible_never_rendered_then_once (st : WorkerState) (id : String)
    (c : MChart) (hnd : (st.charts.map Prod.fst).Nodup)
    (hc : lookupChart st.charts id = some c) :
    (c.visible = false →
      id ∉ (renderFrame st).rendered ∧
      lookupChart (renderFrame st).state.charts id = some c) ∧
    (c.dirty = true → 0 < c.width →
      (onSetVisibility st id true).renderScheduled = true ∧
      (renderFrame (onSetVisibility st id true)).rendered.count id = 1 ∧
      lookupChart (renderFrame (onSetVisibility st id true)).state.charts id =
        some { c with visible := true, dirty := false }) := by
  constructor
  · intro hvis
    constructor
    · intro hmem
      simp only [renderFrame] at hmem
      rcases List.mem_map.1 hmem with ⟨e, he, hefst⟩
      have hef := List.mem_filter.1 he
      have hmem2 : (id, e.2) ∈ st.charts := by
        rw [← hefst]
        exact hef.1
      have hlook := lookupChart_eq_of_mem st.charts id e.2 hnd hmem2
      rw [hc] at hlook
      cases Option.some.inj hlook
      have := hef.2
      rw [renderFlag, hvis] at this
      simp at this
    · simp only [renderFrame]
      rw [lookupChart_map_keyed, hc]
      simp [renderStepChart, renderFlag, hvis]
  · intro hdirty hwidth
    have hsv : onSetVisibility st id true =
        { st with
          charts := updateChart st.charts id (fun c0 => { c0 with visible := true })
          renderScheduled := st.renderScheduled || (true && c.dirty) } := by
      simp only [onSetVisibility, hc]
    have hc2 : lookupChart (onSetVisibility st id true).charts id =
        some { c with visible := true } := by
      rw [hsv]
      dsimp only
      rw [lookupChart_updateChart_self, hc]
      rfl
    have hnd2 : ((onSetVisibility st id true).charts.map Prod.fst).Nodup := by
      rw [hsv]
      dsimp only
      rw [updateChart_keys]
      exact hnd
    have hflag : renderFlag { c with visible := true } = true := by
      simp [renderFlag, hdirty, hwidth]
    refine ⟨?_, ?_, ?_⟩
    · rw [hsv]
      simp [hdirty]
    · have hle : (renderFrame (onSetVisibility st id true)).rendered.count id ≤ 1 := by
        simp only [renderFrame]
        have hsub : (((onSetVisibility st id true).charts.filter
            (fun e => renderFlag e.2)).map Prod.fst).Sublist
            ((onSetVisibility st id true).charts.map Prod.fst) :=
          (List.filter_sublist _).map _
        exact le_trans (hsub.count_le id)
          (List.nodup_iff_count_le_one.1 hnd2 id)
      have hge : 0 < (renderFrame (onSetVisibility st id true)).rendered.count id := by
        rw [List.count_pos_iff]
        simp only [renderFrame]
        exact List.mem_map.2 ⟨(id, { c with visible := true }),
          List.mem_filter.2 ⟨lookupChart_mem _ _ _ hc2, hflag⟩, rfl⟩
      omega
    · simp only [renderFrame]
      rw [lookupChart_map_keyed, hc2]
      simp [renderStepChart, hflag]

/-- Witness for C8 on concrete states: an invisible chart is skipped, a
redisplayed dirty chart renders exactly once. -/
theorem invisible_never_rendered_then_once_witness :
    (("a" ∉ (renderFrame { sampleState with
        charts := [("a", { sampleChart with visible := false })] }).rendered) ∧
      lookupChart (renderFrame { sampleState with
        charts := [("a", { sampleChart with visible := false })] }).state.charts
        "a" = some { sampleChart with visible := false }) ∧
    ((renderFrame (onSetVisibility { sampleState with
        charts := [("a", { sampleChart with visible := false })] } "a"
        true)).rendered.count "a" = 1) :=
  ⟨(invisible_never_rendered_then_once { sampleState with
      charts := [("a", { sampleChart with visible := false })] } "a"
      { sampleChart with visible := false } (by decide) rfl).1 rfl,
    ((invisible_never_rendered_then_once { sampleState with
        charts := [("a", { sampleChart with visible := false })] } "a"
        { sampleChart with visible := false } (by decide) rfl).2 rfl
      (by decide)).2.1⟩

/-- Claim C3 counterexample: a visible, dirty, nonzero-size chart whose
Parameter Block viewport window violates `viewMinX < viewMaxX` is still
rendered and submitted by the next scheduled frame — the frame is not
skipped. -/
theorem degenerate_viewport_frame_not_skipped :
    ¬((viewWindow degenerateChart).1 < (viewWindow degenerateChart).2.1) ∧
    degenerateChart.visible = true ∧ degenerateChart.dirty = true ∧
    (renderFrame degenerateState).rendered = ["a"] ∧
    (renderFrame degenerateState).submitted = ["a"] := by
  refine ⟨by decide, rfl, rfl, rfl, rfl⟩

theorem lineDivs_guard_empty (width maxSamples : ℕ)
    (vminx vmaxx vminy vmaxy : ℚ) (dataX dataY : List ℚ) (outputIdx : ℕ)
    (hguard : vmaxx - vminx < 1 / 10000 ∨ vmaxy - vminy < 1 / 10000) :
    lineKernelColumnViewDivs width vminx vmaxx vminy vmaxy maxSamples dataX
      dataY outputIdx = [] := by
  simp only [lineKernelColumnViewDivs]
  repeat' split
  all_goals first | rfl | exact absurd hguard (by assumption)

theorem boxDivs_guard_empty (width seriesCount : ℕ)
    (vminx vmaxx vminy vmaxy : ℚ) (dataX : List ℚ) (outputIdx : ℕ)
    (hguard : vmaxx - vminx < 1 / 10000 ∨ vmaxy - vminy < 1 / 10000) :
    boxKernelColumnViewDivs width seriesCount vminx vmaxx vminy vmaxy dataX
      outputIdx = [] := by
  simp only [boxKernelColumnViewDivs]
  repeat' split
  all_goals first | rfl | exact absurd hguard (by assumption)

theorem scatterDivs_guard_empty (width height dispatchXCount visStart
      visCount : ℕ) (vminx vmaxx vminy vmaxy : ℚ) (dataX dataY : List ℚ)
    (idx idy : ℕ)
    (hguard : vmaxx - vminx < 1 / 10000 ∨ vmaxy - vminy < 1 / 10000) :
    scatterKernelSampleViewDivs width height vminx vmaxx vminy vmaxy
      dispatchXCount visStart visCount dataX dataY idx idy = [] := by
  simp only [scatterKernelSampleViewDivs]
  repeat' split
  all_goals first | rfl | exact absurd hguard (by assumption)

theorem lineKernel_guard_invalid (width maxSamples : ℕ)
    (vminx vmaxx vminy vmaxy : ℚ) (dataX dataY : List ℚ) (outputIdx : ℕ)
    (hguard : vmaxx - vminx < 1 / 10000 ∨ vmaxy - vminy < 1 / 10000) :
    lineKernelColumn width vminx vmaxx vminy vmaxy maxSamples dataX dataY
        outputIdx = some invalidLine ∨
      lineKernelColumn width vminx vmaxx vminy vmaxy maxSamples dataX dataY
        outputIdx = none := by
  simp only [lineKernelColumn]
  repeat' split
  all_goals first | exact Or.inl rfl | exact Or.inr rfl |
    exact absurd hguard (by assumption)

theorem boxKernel_guard_invalid (width maxSamples seriesIndex seriesCount : ℕ)
    (vminx vmaxx vminy vmaxy : ℚ) (dataX dataY : List ℚ) (outputIdx : ℕ)
    (hguard : vmaxx - vminx < 1 / 10000 ∨ vmaxy - vminy < 1 / 10000) :
    boxKernelColumn width vminx vmaxx vminy vmaxy maxSamples seriesIndex
        seriesCount dataX dataY outputIdx = some invalidBar ∨
      boxKernelColumn width vminx vmaxx vminy vmaxy maxSamples seriesIndex
        seriesCount dataX dataY outputIdx = none := by
  simp only [boxKernelColumn]
  repeat' split
  all_goals first | exact Or.inl rfl | exact Or.inr rfl |
    exact absurd hguard (by assumption)

theorem scatterKernel_guard_empty (width height dispatchXCount visStart
      visCount : ℕ) (vminx vmaxx vminy vmaxy pointSize : ℚ)
    (dataX dataY : List ℚ) (idx idy : ℕ)
    (hguard : vmaxx - vminx < 1 / 10000 ∨ vmaxy - vminy < 1 / 10000) :
    scatterKernelSample width height vminx vmaxx vminy vmaxy dispatchXCount
      visStart visCount pointSize dataX dataY idx idy = [] := by
  simp only [scatterKernelSample]
  repeat' split
  all_goals first | rfl | exact absurd hguard (by assumption)

theorem lineDivs_mem (width maxSamples : ℕ) (vminx vmaxx vminy vmaxy : ℚ)
    (dataX dataY : List ℚ) (outputIdx : ℕ) (q : ℚ)
    (hq : q ∈ lineKernelColumnViewDivs width vminx vmaxx vminy vmaxy
      maxSamples dataX dataY outputIdx) :
    q = vmaxx - vminx ∨ q = vmaxy - vminy := by
  simp only [lineKernelColumnViewDivs] at hq
  repeat' split at hq
  all_goals simp only [List.mem_cons, List.not_mem_nil, or_false] at hq
  all_goals tauto

theorem boxDivs_mem (width seriesCount : ℕ) (vminx vmaxx vminy vmaxy : ℚ)
    (dataX : List ℚ) (outputIdx : ℕ) (q : ℚ)
    (hq : q ∈ boxKernelColumnViewDivs width seriesCount vminx vmaxx vminy
      vmaxy dataX outputIdx) :
    q = vmaxx - vminx ∨ q = vmaxy - vminy := by
  simp only [boxKernelColumnViewDivs] at hq
  repeat' split at hq
  all_goals simp only [List.mem_cons, List.not_mem_nil, or_false] at hq
  all_goals tauto

theorem scatterDivs_mem (width height dispatchXCount visStart visCount : ℕ)
    (vminx vmaxx vminy vmaxy : ℚ) (dataX dataY : List ℚ) (idx idy : ℕ) (q : ℚ)
    (hq : q ∈ scatterKernelSampleViewDivs width height vminx vmaxx vminy vmaxy
      dispatchXCount visStart visCount dataX dataY idx idy) :
    q = vmaxx - vminx ∨ q = vmaxy - vminy := by
  simp only [scatterKernelSampleViewDivs] at hq
  repeat' split at hq
  all_goals simp only [List.cons_append, List.nil_append, List.append_nil,
    List.mem_cons, List.not_mem_nil, or_false] at hq
  all_goals tauto

/-- Claim C3 (amended): the frame is not skipped, but every aggregation
kernel invocation guards the division itself: when the viewport window's X
or Y range is below 1e-4 (in particular zero or negative), each kernel
writes an invalid record or nothing and its view-range divisor list is
empty, and on every path each view-range divisor is ≥ 1e-4 > 0. -/
theorem viewport_guard_no_view_range_division
    (width height maxSamples seriesIndex seriesCount dispatchXCount
      visStart visCount outputIdx idx idy : ℕ)
    (vminx vmaxx vminy vmaxy pointSize : ℚ) (dataX dataY : List ℚ) :
    ((vmaxx - vminx < 1 / 10000 ∨ vmaxy - vminy < 1 / 10000) →
      lineKernelColumnViewDivs width vminx vmaxx vminy vmaxy maxSamples dataX
        dataY outputIdx = [] ∧
      boxKernelColumnViewDivs width seriesCount vminx vmaxx vminy vmaxy dataX
        outputIdx = [] ∧
      scatterKernelSampleViewDivs width height vminx vmaxx vminy vmaxy
        dispatchXCount visStart visCount dataX dataY idx idy = [] ∧
      (lineKernelColumn width vminx vmaxx vminy vmaxy maxSamples dataX dataY
          outputIdx = some invalidLine ∨
        lineKernelColumn width vminx vmaxx vminy vmaxy maxSamples dataX dataY
          outputIdx = none) ∧
      (boxKernelColumn width vminx vmaxx vminy vmaxy maxSamples seriesIndex
          seriesCount dataX dataY outputIdx = some invalidBar ∨
        boxKernelColumn width vminx vmaxx vminy vmaxy maxSamples seriesIndex
          seriesCount dataX dataY outputIdx = none) ∧
      scatterKernelSample width height vminx vmaxx vminy vmaxy dispatchXCount
        visStart visCount pointSize dataX dataY idx idy = []) ∧
    (∀ q ∈ lineKernelColumnViewDivs width vminx vmaxx vminy vmaxy maxSamples
      dataX dataY outputIdx, 1 / 10000 ≤ q) ∧
    (∀ q ∈ boxKernelColumnViewDivs width seriesCount vminx vmaxx vminy vmaxy
      dataX outputIdx, 1 / 10000 ≤ q) ∧
    (∀ q ∈ scatterKernelSampleViewDivs width height vminx vmaxx vminy vmaxy
      dispatchXCount visStart visCount dataX dataY idx idy, 1 / 10000 ≤ q) := by
  have hbound : ∀ q : ℚ,
      ¬(vmaxx - vminx < 1 / 10000 ∨ vmaxy - vminy < 1 / 10000) →
      q = vmaxx - vminx ∨ q = vmaxy - vminy → 1 / 10000 ≤ q := by
    intro q hng hq
    push_neg at hng
    rcases hq with rfl | rfl
    · exact hng.1
    · exact hng.2
  refine ⟨?_, ?_, ?_, ?_⟩
  · intro hguard
    exact ⟨lineDivs_guard_empty _ _ _ _ _ _ _ _ _ hguard,
      boxDivs_guard_empty _ _ _ _ _ _ _ _ hguard,
      scatterDivs_guard_empty _ _ _ _ _ _ _ _ _ _ _ _ _ hguard,
      lineKernel_guard_invalid _ _ _ _ _ _ _ _ _ hguard,
      boxKernel_guard_invalid _ _ _ _ _ _ _ _ _ _ _ hguard,
      scatterKernel_guard_empty _ _ _ _ _ _ _ _ _ _ _ _ _ _ hguard⟩
  · intro q hq
    by_cases hguard : vmaxx - vminx < 1 / 10000 ∨ vmaxy - vminy < 1 / 10000
    · rw [lineDivs_guard_empty _ _ _ _ _ _ _ _ _ hguard] at hq
      exact absurd hq (List.not_mem_nil q)
    · exact hbound q hguard (lineDivs_mem _ _ _ _ _ _ _ _ _ q hq)
  · intro q hq
    by_cases hguard : vmaxx - vminx < 1 / 10000 ∨ vmaxy - vminy < 1 / 10000
    · rw [boxDivs_guard_empty _ _ _ _ _ _ _ _ hguard] at hq
      exact absurd hq (List.not_mem_nil q)
    · exact hbound q hguard (boxDivs_mem _ _ _ _ _ _ _ _ q hq)
  · intro q hq
    by_cases hguard : vmaxx - vminx < 1 / 10000 ∨ vmaxy - vminy < 1 / 10000
    · rw [scatterDivs_guard_empty _ _ _ _ _ _ _ _ _ _ _ _ _ hguard] at hq
      exact absurd hq (List.not_mem_nil q)
    · exact hbound q hguard (scatterDivs_mem _ _ _ _ _ _ _ _ _ _ _ _ _ q hq)

/-- Witness for the amended C3 at a collapsed viewport window. -/
theorem viewport_guard_no_view_range_division_witness :
    ((0 : ℚ) - 0 < 1 / 10000 ∨ (10 : ℚ) - 0 < 1 / 10000) ∧
    lineKernelColumnViewDivs 1 0 0 0 10 0 [1] [2] 0 = [] ∧
    (lineKernelColumn 1 0 0 0 10 0 [1] [2] 0 = some invalidLine ∨
      lineKernelColumn 1 0 0 0 10 0 [1] [2] 0 = none) ∧
    scatterKernelSample 1 1 0 0 0 10 1 0 1 3 [1] [2] 0 0 = [] :=
  ⟨Or.inl (by decide),
    ((viewport_guard_no_view_range_division 1 1 0 0 1 1 0 1 0 0 0 0 0 0 10 3
      [1] [2]).1 (Or.inl (by decide))).1,
    ((viewport_guard_no_view_range_division 1 1 0 0 1 1 0 1 0 0 0 0 0 0 10 3
      [1] [2]).1 (Or.inl (by decide))).2.2.2.1,
    ((viewport_guard_no_view_range_division 1 1 0 0 1 1 0 1 0 0 0 0 0 0 10 3
      [1] [2]).1 (Or.inl (by decide))).2.2.2.2.2⟩

/-- Claim C2 counterexample: at 2,000,000 visible samples, configured
radius 4 and an 800x400 chart, the throttle's 1-pixel floor engages
(sqrt(budget / (visCount * pi)) < 1, so the returned radius is 1), and the
returned radius violates the claimed bound
radius_eff^2 * pi * sampleCount <= 4 * area, since pi * 2,000,000 >
1,280,000. -/
theorem point_radius_throttle_counterexample :
    effectivePointSize 800 400 4 2000000 = 1 ∧
      ¬(effectivePointSize 800 400 4 2000000 ^ 2 * Real.pi * (2000000 : ℝ) ≤
          4 * ((800 : ℝ) * 400)) := by
  have hpi := Real.pi_gt_three
  have heval : effectivePointSize 800 400 4 2000000 = 1 := by
    rw [effectivePointSize]
    push_cast
    rw [show max (1 : ℝ) 2000000 = 2000000 from by norm_num]
    rw [if_pos (by nlinarith), max_eq_left]
    rw [Real.sqrt_le_one]
    rw [div_le_one (by positivity)]
    nlinarith
  refine ⟨heval, ?_⟩
  rw [heval]
  push_neg
  nlinarith

/-- Claim C2 (amended): the throttled radius keeps the estimated coverage
radius_eff^2 * pi * visCount within the budget 4 * width * height, except
that the 1-pixel floor can raise it to pi * visCount; so the coverage is
always at most max(4 * width * height, pi * max(1, visibleCount)). -/
theorem point_radius_throttle_amended (width height visibleCount : ℕ)
    (pointSize : ℝ) :
    effectivePointSize width height pointSize visibleCount ^ 2 * Real.pi *
        max 1 ((visibleCount : ℝ)) ≤
      max (4 * ((width : ℝ) * (height : ℝ)))
        (Real.pi * max 1 ((visibleCount : ℝ))) := by
  have hpi : (0 : ℝ) < Real.pi := Real.pi_pos
  have hv : (0 : ℝ) < max 1 ((visibleCount : ℝ)) :=
    lt_of_lt_of_le one_pos (le_max_left _ _)
  have harea : ((width : ℝ) * (height : ℝ)) * 4 =
      4 * ((width : ℝ) * (height : ℝ)) := by ring
  rw [effectivePointSize]
  split
  · rcases le_total
        (Real.sqrt (((width : ℝ) * (height : ℝ)) * 4 /
          (max 1 ((visibleCount : ℝ)) * Real.pi))) 1 with hs | hs
    · rw [max_eq_left hs]
      calc (1 : ℝ) ^ 2 * Real.pi * max 1 ((visibleCount : ℝ)) =
            Real.pi * max 1 ((visibleCount : ℝ)) := by ring
        _ ≤ _ := le_max_right _ _
    · rw [max_eq_right hs,
        Real.sq_sqrt (by positivity :
          (0 : ℝ) ≤ ((width : ℝ) * (height : ℝ)) * 4 /
            (max 1 ((visibleCount : ℝ)) * Real.pi))]
      have hne : max 1 ((visibleCount : ℝ)) * Real.pi ≠ 0 := by positivity
      calc ((width : ℝ) * (height : ℝ)) * 4 /
            (max 1 ((visibleCount : ℝ)) * Real.pi) * Real.pi *
            max 1 ((visibleCount : ℝ)) =
          ((width : ℝ) * (height : ℝ)) * 4 := by
            field_simp
            ring
        _ ≤ _ := by rw [harea]; exact le_max_left _ _
  · rename_i h
    push_neg at h
    calc pointSize ^ 2 * Real.pi * max 1 ((visibleCount : ℝ)) =
          max 1 ((visibleCount : ℝ)) * (Real.pi * pointSize * pointSize) := by
            ring
      _ ≤ ((width : ℝ) * (height : ℝ)) * 4 := h
      _ ≤ _ := by rw [harea]; exact le_max_left _ _

end ChartAI
